import Mathlib

/-!
Shallow embedding of the roead SARC and BYML binary codecs (src/src/sarc/*,
src/src/byml/*), with theorems settling the frozen claims about the
specification.

Buffers are modelled as `List Nat` with byte values below 256 where the code
guarantees u8 (the parsers are total over arbitrary lists).  Machine integers
are `Nat` with explicit `% 2^w` where the Rust code wraps.  Fallible reads
return `Option`; a Rust `panic!`-style abort (out-of-range slice index) is a
distinguished outcome where a claim depends on it.
-/

namespace Roead

/-- Byte buffers: each element is one byte (0..255 for well-formed data). -/
abbrev Bytes := List Nat

/-- Endianness (src/src/lib.rs `Endian`: Big = 0xFFFE BOM bytes fe ff,
Little = 0xFEFF BOM bytes ff fe). -/
inductive REndian where
  | big
  | little
deriving DecidableEq, Repr

/-- Encode a 16-bit value (wrapping) as two bytes in the given endianness,
as the byte crate writes `u16` fields. -/
def w16 (e : REndian) (v : Nat) : Bytes :=
  match e with
  | .little => [v % 256, v / 256 % 256]
  | .big => [v / 256 % 256, v % 256]

/-- Encode a 32-bit value (wrapping) as four bytes in the given endianness,
as the byte crate writes `u32` fields. -/
def w32 (e : REndian) (v : Nat) : Bytes :=
  match e with
  | .little => [v % 256, v / 2 ^ 8 % 256, v / 2 ^ 16 % 256, v / 2 ^ 24 % 256]
  | .big => [v / 2 ^ 24 % 256, v / 2 ^ 16 % 256, v / 2 ^ 8 % 256, v % 256]

/-- Read a `u16` at position `pos`; `none` when fewer than 2 bytes remain
(the byte crate's `Incomplete`/`BadOffset` errors). -/
def readU16 (e : REndian) (b : Bytes) (pos : Nat) : Option Nat :=
  match b[pos]?, b[pos + 1]? with
  | some x, some y =>
    some (match e with
      | .little => x + 256 * y
      | .big => 256 * x + y)
  | _, _ => none

/-- Read a 24-bit integer at position `pos` (crate-local `u24` type; the
source file defining it is not under src; modelled from the spec:
"u24 is stored endian-sensitively as three bytes"). -/
def readU24 (e : REndian) (b : Bytes) (pos : Nat) : Option Nat :=
  match b[pos]?, b[pos + 1]?, b[pos + 2]? with
  | some x, some y, some z =>
    some (match e with
      | .little => x + 256 * y + 65536 * z
      | .big => 65536 * x + 256 * y + z)
  | _, _, _ => none

/-- Read a `u32` at position `pos`; `none` when fewer than 4 bytes remain. -/
def readU32 (e : REndian) (b : Bytes) (pos : Nat) : Option Nat :=
  match b[pos]?, b[pos + 1]?, b[pos + 2]?, b[pos + 3]? with
  | some x, some y, some z, some w =>
    some (match e with
      | .little => x + 2 ^ 8 * y + 2 ^ 16 * z + 2 ^ 24 * w
      | .big => 2 ^ 24 * x + 2 ^ 16 * y + 2 ^ 8 * z + w)
  | _, _, _, _ => none

/-- Read a `u64` at position `pos` (for out-of-line BYML scalars). -/
def readU64 (e : REndian) (b : Bytes) (pos : Nat) : Option Nat :=
  match readU32 e b pos, readU32 e b (pos + 4) with
  | some x, some y =>
    some (match e with
      | .little => x + 2 ^ 32 * y
      | .big => 2 ^ 32 * x + y)
  | _, _ => none

/-- The two BOM bytes the `Endian` TryWrite impl emits (src/src/lib.rs). -/
def bomBytes (e : REndian) : Bytes :=
  match e with
  | .big => [0xfe, 0xff]
  | .little => [0xff, 0xfe]

/-- `Endian::try_read` (src/src/lib.rs): fe ff ⇒ Big, ff fe ⇒ Little,
anything else is an error. -/
def readBom (b : Bytes) (pos : Nat) : Option REndian :=
  match b[pos]?, b[pos + 1]? with
  | some 0xfe, some 0xff => some .big
  | some 0xff, some 0xfe => some .little
  | some _, some _ => none
  | _, _ => none

/-- `alloc::slice` subrange `data.get(lo..hi)` semantics: `none` unless
`lo ≤ hi ≤ data.len()`. -/
def sliceGet (b : Bytes) (lo hi : Nat) : Option Bytes :=
  if lo ≤ hi ∧ hi ≤ b.length then some ((b.drop lo).take (hi - lo)) else none

/-- `align` (src/src/sarc/write.rs lines 33-38, identical to the spec's
`align_up`): `pos + (a - pos % a) % a`.  All in-range uses have `a > 0`. -/
def alignUp (pos a : Nat) : Nat :=
  pos + (a - pos % a) % a

/-- `hash_name` lives in the sarc module root, which is not under src.
Modelled from the spec: "hash_name(mul, s) folds ASCII bytes as
h = h * mul + b with wrapping 32-bit arithmetic, starting from h = 0". -/
def hashName (mul : Nat) (name : Bytes) : Nat :=
  name.foldl (fun h b => (h * mul + b) % 2 ^ 32) 0

/-- `is_valid_alignment` lives in the sarc module root, which is not under
src.  Modelled from the spec: "is_valid_alignment(a) = a > 0 ∧
(a & (a-1)) = 0". -/
def isValidAlignment (a : Nat) : Bool :=
  decide (0 < a) && decide (a &&& (a - 1) = 0)

/-- `find_null` (src/src/sarc/parse.rs lines 15-21): position of the first
NUL byte, or an error when there is none. -/
def findNull (b : Bytes) : Option Nat :=
  b.findIdx? (fun x => x = 0)

/-- Whether a byte is a UTF-8 continuation byte (10xxxxxx). -/
def isCont (b : Nat) : Bool :=
  decide (0x80 ≤ b) && decide (b < 0xC0)

/-- Model of `core::str::from_utf8` validity (RFC 3629 well-formedness),
used when the SARC reader decodes file names. -/
def validUtf8 : Bytes → Bool
  | [] => true
  | b :: rest =>
    if b < 0x80 then validUtf8 rest
    else
      match rest with
      | [] => false
      | c1 :: r1 =>
        if 0xC2 ≤ b ∧ b ≤ 0xDF then isCont c1 && validUtf8 r1
        else
          match r1 with
          | [] => false
          | c2 :: r2 =>
            if b = 0xE0 then
              decide (0xA0 ≤ c1) && decide (c1 ≤ 0xBF) && isCont c2 && validUtf8 r2
            else if (0xE1 ≤ b ∧ b ≤ 0xEC) ∨ b = 0xEE ∨ b = 0xEF then
              isCont c1 && isCont c2 && validUtf8 r2
            else if b = 0xED then
              decide (0x80 ≤ c1) && decide (c1 ≤ 0x9F) && isCont c2 && validUtf8 r2
            else
              match r2 with
              | [] => false
              | c3 :: r3 =>
                if b = 0xF0 then
                  decide (0x90 ≤ c1) && decide (c1 ≤ 0xBF) && isCont c2 && isCont c3 &&
                    validUtf8 r3
                else if 0xF1 ≤ b ∧ b ≤ 0xF3 then
                  isCont c1 && isCont c2 && isCont c3 && validUtf8 r3
                else if b = 0xF4 then
                  decide (0x80 ≤ c1) && decide (c1 ≤ 0x8F) && isCont c2 && isCont c3 &&
                    validUtf8 r3
                else false

/-! ## BYML zero-copy reader and materializer (src/src/byml/parser.rs) -/

/-- `NodeType` (src/src/byml/mod.rs lines 79-96). -/
inductive NodeTypeB where
  | hashMapT
  | valueHashMapT
  | stringT
  | binaryT
  | fileT
  | arrayT
  | mapT
  | stringTableT
  | boolT
  | i32T
  | floatT
  | u32T
  | i64T
  | u64T
  | doubleT
  | nullT
deriving DecidableEq, Repr

/-- `NodeType::try_read` (src/src/byml/parser.rs lines 21-51): one tag byte,
unknown tags are an error. -/
def nodeTypeRead (b : Nat) : Option NodeTypeB :=
  match b with
  | 0x20 => some .hashMapT
  | 0x21 => some .valueHashMapT
  | 0xa0 => some .stringT
  | 0xa1 => some .binaryT
  | 0xa2 => some .fileT
  | 0xc0 => some .arrayT
  | 0xc1 => some .mapT
  | 0xc2 => some .stringTableT
  | 0xd0 => some .boolT
  | 0xd1 => some .i32T
  | 0xd2 => some .floatT
  | 0xd3 => some .u32T
  | 0xd4 => some .i64T
  | 0xd5 => some .u64T
  | 0xd6 => some .doubleT
  | 0xff => some .nullT
  | _ => none

/-- `is_valid_version` (src/src/byml/mod.rs lines 106-109):
`version >= 1 && version < 8`.  Note: the parser never calls it. -/
def isValidVersion (version : Nat) : Bool :=
  decide (1 ≤ version) && decide (version < 8)

/-- The BYML `Header` (src/src/byml/parser.rs lines 53-95). -/
structure HeaderB where
  endian : REndian
  version : Nat
  hashKeyTableOffset : Nat
  stringTableOffset : Nat
  rootNodeOffset : Nat
deriving DecidableEq, Repr

/-- `Header::try_read` (src/src/byml/parser.rs lines 71-95): requires 16
bytes, magic "BY" ⇒ big endian / "YB" ⇒ little endian, then reads the
16-bit version and the three 32-bit offsets with the detected endianness.
The version is read but never validated. -/
def headerRead (b : Bytes) : Option HeaderB :=
  if 16 ≤ b.length then
    match b[0]?, b[1]? with
    | some 0x42, some 0x59 =>
      match readU16 .big b 2, readU32 .big b 4, readU32 .big b 8, readU32 .big b 12 with
      | some v, some hk, some st, some rt => some ⟨.big, v, hk, st, rt⟩
      | _, _, _, _ => none
    | some 0x59, some 0x42 =>
      match readU16 .little b 2, readU32 .little b 4, readU32 .little b 8,
          readU32 .little b 12 with
      | some v, some hk, some st, some rt => some ⟨.little, v, hk, st, rt⟩
      | _, _, _, _ => none
    | _, _ => none
  else none

/-- `BymlIter` (src/src/byml/parser.rs lines 102-107). -/
structure BymlIt where
  data : Bytes
  endian : REndian
  rootIdx : Option Nat
deriving DecidableEq, Repr

/-- `BymlIter::new` (src/src/byml/parser.rs lines 558-572): parse the
header; the root index is `None` when the stored root offset is zero.
No version check is performed. -/
def bymlIterNew (b : Bytes) : Option BymlIt :=
  (headerRead b).map fun h =>
    ⟨b, h.endian, if h.rootNodeOffset = 0 then none else some h.rootNodeOffset⟩

/-- `BymlContainerHeader` (src/src/byml/parser.rs lines 204-222). -/
structure ContainerHdr where
  nodeType : NodeTypeB
  len : Nat
deriving DecidableEq, Repr

/-- `BymlIter::parse_container` (src/src/byml/parser.rs lines 591-594):
`BymlContainerHeader::try_read` on `data[off..]` — `check_len 4`, one tag
byte (must be a known node type) and a u24 length.  An `off` beyond the
buffer makes the Rust slice expression abort; no claim exercises that case
and it is modelled as `none`. -/
def parseContainer (e : REndian) (b : Bytes) (off : Nat) : Option ContainerHdr :=
  if off + 4 ≤ b.length then
    match b[off]? with
    | none => none
    | some t =>
      match nodeTypeRead t, readU24 e b (off + 1) with
      | some nt, some l => some ⟨nt, l⟩
      | _, _ => none
  else none

/-- `BymlIter::root_node` (src/src/byml/parser.rs lines 596-600). -/
def rootNode (it : BymlIt) : Option ContainerHdr :=
  match it.rootIdx with
  | some idx => parseContainer it.endian it.data idx
  | none => none

/-- `BymlStringTableReader` (src/src/byml/parser.rs lines 109-114): holds
the buffer suffix that starts at the table. -/
structure StrTable where
  data : Bytes
  len : Nat
  endian : REndian
deriving DecidableEq, Repr

/-- `BymlStringTableReader::new` (src/src/byml/parser.rs lines 139-155):
the first byte must be the 0xC2 string-table tag, then a u24 count. -/
def strTableNew (b : Bytes) (e : REndian) : Option StrTable :=
  match b[0]? with
  | none => none
  | some t =>
    match nodeTypeRead t with
    | some .stringTableT => (readU24 e b 1).map fun l => ⟨b, l, e⟩
    | _ => none

/-- The `nth(index)` step of `BymlStringOffsetIterator` as used by
`BymlStringTableReader::get` (src/src/byml/parser.rs lines 123-137, 168):
yields the u32 at table offset `4 + 4*index` while `index < len` and
`4*index` does not overrun the offsets area. -/
def strGetOffset (st : StrTable) (index : Nat) : Option Nat :=
  if index < st.len ∧ index * 4 ≤ st.data.length - 4 then
    readU32 st.endian st.data (4 + index * 4)
  else none

/-- `BymlStringTableReader::get` (src/src/byml/parser.rs lines 168-173):
follow the indexed offset to a NUL-terminated UTF-8 string. -/
def strGet (st : StrTable) (index : Nat) : Option Bytes :=
  match strGetOffset st index with
  | none => none
  | some off =>
    if off ≤ st.data.length then
      match findNull (st.data.drop off) with
      | some n =>
        let s := (st.data.drop off).take n
        if validUtf8 s then some s else none
      | none => none
    else none

/-- `BymlIter::key_table` (src/src/byml/parser.rs lines 580-583). -/
def keyTable (it : BymlIt) : Option StrTable :=
  match headerRead it.data with
  | none => none
  | some h =>
    if h.hashKeyTableOffset ≤ it.data.length then
      strTableNew (it.data.drop h.hashKeyTableOffset) it.endian
    else none

/-- `BymlIter::string_table` (src/src/byml/parser.rs lines 586-589). -/
def stringTable (it : BymlIt) : Option StrTable :=
  match headerRead it.data with
  | none => none
  | some h =>
    if h.stringTableOffset ≤ it.data.length then
      strTableNew (it.data.drop h.stringTableOffset) it.endian
    else none

/-- IEEE-754 binary32 bit pattern of the Rust numeric conversion
`value as f32` applied to a `u32` (round to nearest, ties to even).  The
parser stores BYML Float payloads through this conversion
(src/src/byml/parser.rs line 529), so the model represents every `f32` by
its bit pattern and this function computes the conversion's result. -/
def floorLog2Aux : Nat → Nat → Nat
  | 0, _ => 0
  | fuel + 1, n => if n < 2 then 0 else floorLog2Aux fuel (n / 2) + 1

/-- Floor of the base-2 logarithm (fuel-based so that it reduces by
`decide`/`rfl`; 40 iterations cover every 32-bit input). -/
def floorLog2 (n : Nat) : Nat :=
  floorLog2Aux 40 n

def u32ToF32bits (n : Nat) : Nat :=
  if n = 0 then 0
  else
    let e := floorLog2 n
    if e ≤ 23 then (e + 127) * 2 ^ 23 + n * 2 ^ (23 - e) - 2 ^ 23
    else
      let shift := e - 23
      let base := n / 2 ^ shift
      let rem := n % 2 ^ shift
      let half := 2 ^ (shift - 1)
      let rounded := if half < rem ∨ (rem = half ∧ base % 2 = 1) then base + 1 else base
      if rounded = 2 ^ 24 then (e + 128) * 2 ^ 23
      else (e + 127) * 2 ^ 23 + rounded - 2 ^ 23

/-- `BymlNode` (src/src/byml/parser.rs lines 453-471).  The `f32` payload
is represented by its IEEE-754 bit pattern. -/
inductive BymlNode where
  | hashMapN (offset : Nat)
  | valueHashMapN (offset : Nat)
  | stringN (index : Nat)
  | binaryN (offset : Nat)
  | fileN (offset : Nat)
  | arrayN (offset : Nat)
  | mapN (offset : Nat)
  | stringTableN (offset : Nat)
  | boolN (b : Bool)
  | i32N (v : Int)
  | floatN (bits : Nat)
  | u32N (v : Nat)
  | i64N (offset : Nat)
  | u64N (offset : Nat)
  | doubleN (offset : Nat)
  | nullN
deriving DecidableEq, Repr

/-- `BymlNode::new` (src/src/byml/parser.rs lines 474-533).  Bool compares
the word to 1, I32 reinterprets as two's complement, and Float applies the
`value as f32` numeric conversion (not a bit reinterpretation). -/
def bymlNodeNew (value : Nat) (t : NodeTypeB) : BymlNode :=
  match t with
  | .stringT => .stringN value
  | .hashMapT => .hashMapN value
  | .valueHashMapT => .valueHashMapN value
  | .binaryT => .binaryN value
  | .fileT => .fileN value
  | .arrayT => .arrayN value
  | .mapT => .mapN value
  | .stringTableT => .stringTableN value
  | .i64T => .i64N value
  | .u64T => .u64N value
  | .doubleT => .doubleN value
  | .boolT => .boolN (value == 1)
  | .i32T => .i32N (if value < 2 ^ 31 then (value : Int) else (value : Int) - 2 ^ 32)
  | .floatT => .floatN (u32ToF32bits value)
  | .u32T => .u32N value
  | .nullT => .nullN

/-- Result of one iterator `next` call: `crash` models a Rust panic from an
out-of-range slice start, `done` is `None`, `item` yields and returns the
advanced iterator. -/
inductive NextRes (σ α : Type) where
  | crash
  | done
  | item (st : σ) (a : α)
deriving Repr

/-- `BymlHashMapIterator` (src/src/byml/parser.rs lines 354-362). -/
structure HMIter where
  data : Bytes
  len : Nat
  index : Nat
  invalid : Bool
  value : Bool
  endian : REndian
deriving DecidableEq, Repr

/-- `BymlHashMapIterator::new` (src/src/byml/parser.rs lines 364-377): the
validity check reserves `4 + len*9` bytes — the 8-byte pair plus tag of a
plain HashMap — even when `value` is set and entries really occupy
12 + 1 bytes. -/
def hmIterNew (node : ContainerHdr) (d : Bytes) (v : Bool) (e : REndian) : HMIter :=
  { data := d, len := node.len, index := 0,
    invalid := decide (d.length < 4 + node.len * 9), value := v, endian := e }

/-- `BymlHashMapIterator::next` (src/src/byml/parser.rs lines 421-451):
reads the hash and value words of entry `index`, then the tag byte at
`4 + len*size + index`.  Each read slices `data[start..]` first, which
aborts when `start` exceeds the buffer length (`crash`); a merely short
suffix makes `try_read` fail and iteration end (`done`). -/
def hmNext (st : HMIter) : NextRes HMIter (Nat × BymlNode) :=
  if st.invalid then .done
  else
    let size := if st.value then 12 else 8
    let s1 := 4 + st.index * size
    if st.data.length < s1 then .crash
    else
      match readU32 st.endian st.data s1 with
      | none => .done
      | some hash =>
        if st.data.length < s1 + 4 then .crash
        else
          match readU32 st.endian st.data (s1 + 4) with
          | none => .done
          | some value =>
            let s3 := 4 + st.len * size + st.index
            if st.data.length < s3 then .crash
            else
              match st.data[s3]? with
              | none => .done
              | some tb =>
                match nodeTypeRead tb with
                | none => .done
                | some t =>
                  .item { st with index := st.index + 1 } (hash, bymlNodeNew value t)

/-- `BymlArrayIterator` (src/src/byml/parser.rs lines 305-332). -/
structure ArrIter where
  data : Bytes
  len : Nat
  index : Nat
  invalid : Bool
  endian : REndian
deriving DecidableEq, Repr

/-- `BymlArrayIterator::new` (src/src/byml/parser.rs lines 314-327):
invalid when the buffer has fewer than `len*5 + 4` bytes. -/
def arrIterNew (node : ContainerHdr) (d : Bytes) (e : REndian) : ArrIter :=
  { data := d, len := node.len, index := 0,
    invalid := decide (d.length < node.len * 5 + 4), endian := e }

/-- `BymlArrayIterator::next` (src/src/byml/parser.rs lines 334-352): tag
byte at `4 + index`, value word at `align_up(4 + len, 4) + 4*index`. -/
def arrNext (st : ArrIter) : NextRes ArrIter BymlNode :=
  if st.invalid then .done
  else
    let s1 := 4 + st.index
    if st.data.length < s1 then .crash
    else
      match st.data[s1]? with
      | none => .done
      | some tb =>
        match nodeTypeRead tb with
        | none => .done
        | some t =>
          let s2 := alignUp (4 + st.len) 4 + st.index * 4
          if st.data.length < s2 then .crash
          else
            match readU32 st.endian st.data s2 with
            | none => .done
            | some v => .item { st with index := st.index + 1 } (bymlNodeNew v t)

/-- `BymlMapIterator` (src/src/byml/parser.rs lines 224-252). -/
structure MapIter where
  data : Bytes
  len : Nat
  strings : StrTable
  index : Nat
  invalid : Bool
  endian : REndian
deriving DecidableEq, Repr

/-- `BymlMapIterator::new` (src/src/byml/parser.rs lines 238-252):
invalid when the buffer has fewer than `len*8` bytes. -/
def mapIterNew (node : ContainerHdr) (d : Bytes) (strings : StrTable) (e : REndian) :
    MapIter :=
  { data := d, len := node.len, strings := strings, index := 0,
    invalid := decide (d.length < node.len * 8), endian := e }

/-- `BymlMapIterator::next` (src/src/byml/parser.rs lines 284-303): an
8-byte `BymlMapPair` — u24 key index, tag byte, u32 value — at
`4 + 8*index`, then the key string from the hash-key table. -/
def mapNext (st : MapIter) : NextRes MapIter (Bytes × BymlNode) :=
  if st.invalid then .done
  else
    let s1 := 4 + st.index * 8
    if st.data.length < s1 then .crash
    else if st.data.length - s1 < 8 then .done
    else
      match readU24 st.endian st.data s1, st.data[s1 + 3]?,
          readU32 st.endian st.data (s1 + 4) with
      | some key, some tb, some value =>
        match nodeTypeRead tb with
        | none => .done
        | some t =>
          match strGet st.strings key with
          | none => .done
          | some k => .item { st with index := st.index + 1 } (k, bymlNodeNew value t)
      | _, _, _ => .done

/-- `BymlIter::iter_as_value_hash_map` (src/src/byml/parser.rs lines
729-741): only when the root container is tagged 0x21; the iterator gets
the buffer suffix that starts at the root node. -/
def iterAsValueHashMap (it : BymlIt) : Option HMIter :=
  match it.rootIdx with
  | none => none
  | some idx =>
    match parseContainer it.endian it.data idx with
    | some n =>
      if n.nodeType = .valueHashMapT then
        some (hmIterNew n (it.data.drop idx) true it.endian)
      else none
    | none => none

/-- `BymlIter::iter_hash_map_data` (src/src/byml/parser.rs lines 784-796). -/
def iterHashMapData (it : BymlIt) (node : BymlNode) : Option HMIter :=
  match node with
  | .hashMapN off =>
    match parseContainer it.endian it.data off with
    | some n => some (hmIterNew n (it.data.drop off) false it.endian)
    | none => none
  | _ => none

/-- `BymlIter::iter_value_hash_map_data` (src/src/byml/parser.rs lines
799-811). -/
def iterValueHashMapData (it : BymlIt) (node : BymlNode) : Option HMIter :=
  match node with
  | .valueHashMapN off =>
    match parseContainer it.endian it.data off with
    | some n => some (hmIterNew n (it.data.drop off) true it.endian)
    | none => none
  | _ => none

/-- `BymlIter::iter_array_data` (src/src/byml/parser.rs lines 770-781). -/
def iterArrayData (it : BymlIt) (node : BymlNode) : Option ArrIter :=
  match node with
  | .arrayN off =>
    match parseContainer it.endian it.data off with
    | some n => some (arrIterNew n (it.data.drop off) it.endian)
    | none => none
  | _ => none

/-- `BymlIter::iter_map_data` (src/src/byml/parser.rs lines 755-767). -/
def iterMapData (it : BymlIt) (node : BymlNode) : Option MapIter :=
  match node with
  | .mapN off =>
    match parseContainer it.endian it.data off with
    | some n =>
      match keyTable it with
      | some strings => some (mapIterNew n (it.data.drop off) strings it.endian)
      | none => none
    | none => none
  | _ => none

/-- Drain a hash-map iterator into a list; `none` models a panic during
iteration.  The fuel passed at call sites exceeds any possible number of
yielded items. -/
def drainHM : Nat → HMIter → Option (List (Nat × BymlNode))
  | 0, _ => none
  | fuel + 1, st =>
    match hmNext st with
    | .crash => none
    | .done => some []
    | .item st2 a => (drainHM fuel st2).map (a :: ·)

/-- Drain an array iterator into a list; `none` models a panic. -/
def drainArr : Nat → ArrIter → Option (List BymlNode)
  | 0, _ => none
  | fuel + 1, st =>
    match arrNext st with
    | .crash => none
    | .done => some []
    | .item st2 a => (drainArr fuel st2).map (a :: ·)

/-- Drain a map iterator into a list; `none` models a panic. -/
def drainMap : Nat → MapIter → Option (List (Bytes × BymlNode))
  | 0, _ => none
  | fuel + 1, st =>
    match mapNext st with
    | .crash => none
    | .done => some []
    | .item st2 a => (drainMap fuel st2).map (a :: ·)

/-- `BymlIter::get_string_data` (src/src/byml/parser.rs lines 744-752). -/
def getStringData (it : BymlIt) (node : BymlNode) : Option Bytes :=
  match node with
  | .stringN index =>
    match stringTable it with
    | some st => strGet st index
    | none => none
  | _ => none

/-- `BymlIter::get_binary_data` (src/src/byml/parser.rs lines 843-855):
u32 size at the node offset, then `size` bytes 4 past it. -/
def getBinaryData (it : BymlIt) (node : BymlNode) : Option Bytes :=
  match node with
  | .binaryN off =>
    if off ≤ it.data.length then
      let d := it.data.drop off
      match readU32 it.endian d 0 with
      | none => none
      | some size => if size + 4 ≤ d.length then some ((d.drop 4).take size) else none
    else none
  | _ => none

/-- `BymlIter::get_file_data` (src/src/byml/parser.rs lines 857-869).  The
body pattern-matches `BymlNode::Binary { offset }` — not `File` — so a
`File` node reference always falls to the `else` branch and yields `None`. -/
def getFileData (it : BymlIt) (node : BymlNode) : Option Bytes :=
  match node with
  | .binaryN off =>
    if off ≤ it.data.length then
      let d := it.data.drop off
      match readU32 it.endian d 0 with
      | none => none
      | some size => if size + 8 ≤ d.length then some ((d.drop 8).take size) else none
    else none
  | _ => none

/-- `BymlIter::get_i64_data` (src/src/byml/parser.rs lines 814-821),
two's-complement decode of the 8 bytes at the node offset. -/
def getI64Data (it : BymlIt) (node : BymlNode) : Option Int :=
  match node with
  | .i64N off =>
    if off ≤ it.data.length then
      (readU64 it.endian it.data off).map fun v =>
        if v < 2 ^ 63 then (v : Int) else (v : Int) - 2 ^ 64
    else none
  | _ => none

/-- `BymlIter::get_u64_data` (src/src/byml/parser.rs lines 824-831). -/
def getU64Data (it : BymlIt) (node : BymlNode) : Option Nat :=
  match node with
  | .u64N off => if off ≤ it.data.length then readU64 it.endian it.data off else none
  | _ => none

/-- `BymlIter::get_double_data` (src/src/byml/parser.rs lines 834-841);
the `f64` is represented by its bit pattern. -/
def getDoubleData (it : BymlIt) (node : BymlNode) : Option Nat :=
  match node with
  | .doubleN off => if off ≤ it.data.length then readU64 it.endian it.data off else none
  | _ => none

/-- `Byml` (src/src/byml/alloc.rs lines 16-47), the materialized tree.
Floats and doubles are represented by their IEEE-754 bit patterns.  The
Rust `Map`/`HashMap` variants hold `FxHashMap`s; the model keeps the
key-value pairs as a list in the order the materializer collects them —
the list retains full information about the hash map's contents. -/
inductive Byml where
  | str (s : Bytes)
  | binaryData (b : Bytes)
  | fileData (b : Bytes)
  | array (l : List Byml)
  | map (l : List (Bytes × Byml))
  | hashMap (l : List (Nat × Byml))
  | valueHashMap (l : List (Nat × Byml × Nat))
  | bool (b : Bool)
  | i32 (v : Int)
  | float (bits : Nat)
  | u32 (v : Nat)
  | i64 (v : Int)
  | u64 (v : Nat)
  | double (bits : Nat)
  | null
deriving Repr

/-- Materializer failure: `err` is a propagated parse error, `crashed`
models a Rust abort (panicking iterator or the `unimplemented!()` arm). -/
inductive BErr where
  | err
  | crashed
deriving DecidableEq, Repr

/-- `BymlIter::node_to_byml` (src/src/byml/parser.rs lines 872-970),
fuel-indexed for termination (offsets in a document can form cycles, on
which the Rust recursion would not terminate; fuel exhaustion is reported
as `crashed`).  The ValueHashMap arm collects into `Byml::HashMap`,
dropping the auxiliary u32, exactly as the source does (line 890). -/
def nodeToByml (it : BymlIt) : Nat → BymlNode → Except BErr Byml
  | 0, _ => .error .crashed
  | fuel + 1, node =>
    match node with
    | .hashMapN _ =>
      match iterHashMapData it node with
      | none => .error .err
      | some st =>
        match drainHM (st.data.length + 1) st with
        | none => .error .crashed
        | some l =>
          (l.mapM fun p => (nodeToByml it fuel p.2).map fun v => (p.1, v)).map
            Byml.hashMap
    | .valueHashMapN _ =>
      match iterValueHashMapData it node with
      | none => .error .err
      | some st =>
        match drainHM (st.data.length + 1) st with
        | none => .error .crashed
        | some l =>
          (l.mapM fun p => (nodeToByml it fuel p.2).map fun v => (p.1, v)).map
            Byml.hashMap
    | .stringN _ =>
      match getStringData it node with
      | some s => .ok (.str s)
      | none => .error .err
    | .binaryN _ =>
      match getBinaryData it node with
      | some s => .ok (.binaryData s)
      | none => .error .err
    | .fileN _ =>
      match getFileData it node with
      | some s => .ok (.fileData s)
      | none => .error .err
    | .arrayN _ =>
      match iterArrayData it node with
      | none => .error .err
      | some st =>
        match drainArr (st.data.length + 1) st with
        | none => .error .crashed
        | some l => (l.mapM fun nd => nodeToByml it fuel nd).map Byml.array
    | .mapN _ =>
      match iterMapData it node with
      | none => .error .err
      | some st =>
        match drainMap (st.data.length + 1) st with
        | none => .error .crashed
        | some l =>
          (l.mapM fun p => (nodeToByml it fuel p.2).map fun v => (p.1, v)).map Byml.map
    | .stringTableN _ => .error .crashed
    | .i64N _ =>
      match getI64Data it node with
      | some v => .ok (.i64 v)
      | none => .error .err
    | .u64N _ =>
      match getU64Data it node with
      | some v => .ok (.u64 v)
      | none => .error .err
    | .doubleN _ =>
      match getDoubleData it node with
      | some v => .ok (.double v)
      | none => .error .err
    | .nullN => .ok .null
    | .boolN v => .ok (.bool v)
    | .i32N v => .ok (.i32 v)
    | .floatN v => .ok (.float v)
    | .u32N v => .ok (.u32 v)

/-- `Byml::from_binary` (src/src/byml/parser.rs lines 10-19 and the
`TryFrom<&BymlIter>` impl, lines 974-990): parse the header, then
materialize from the root node; a document without a root — or whose root
container header fails to parse — materializes to `Null`.  The Yaz0
pre-filter (feature-gated external collaborator) is outside the modelled
core. -/
def bymlFromBinary (b : Bytes) : Except BErr Byml :=
  match bymlIterNew b with
  | none => .error .err
  | some it =>
    match it.rootIdx with
    | none => .ok .null
    | some idx =>
      match parseContainer it.endian it.data idx with
      | none => .ok .null
      | some hdr => nodeToByml it (it.data.length + 2) (bymlNodeNew (idx % 2 ^ 32) hdr.nodeType)

/-! ## Concrete BYML documents used as failing inputs -/

/-- A 16-byte BYML document: big-endian magic "BY", version 0, all three
offsets zero. -/
def c2buf : Bytes :=
  [0x42, 0x59] ++ List.replicate 14 0

/-- A 33-byte little-endian BYML document, version 7: root at offset 16 is
a ValueHashMap (tag 0x21) with one entry — hash 5, inline Bool value 1,
auxiliary word 0x2A — and trailing tag byte 0xD0. -/
def c5buf : Bytes :=
  [0x59, 0x42, 7, 0, 0, 0, 0, 0, 0, 0, 0, 0, 16, 0, 0, 0,
   0x21, 1, 0, 0,
   5, 0, 0, 0,
   1, 0, 0, 0,
   0x2A, 0, 0, 0,
   0xD0]

/-- A 29-byte little-endian BYML document, version 7: root at offset 16 is
a ValueHashMap (tag 0x21) with declared count 1, but only 13 bytes remain
from the root node — more than the `4 + 1*9` the iterator's validity check
requires, fewer than the `4 + 1*12 + 1` one entry of a value hash map
occupies. -/
def c8buf : Bytes :=
  [0x59, 0x42, 7, 0, 0, 0, 0, 0, 0, 0, 0, 0, 16, 0, 0, 0,
   0x21, 1, 0, 0,
   0, 0, 0, 0,
   0, 0, 0, 0,
   0]

/-- The iterator state `iter_as_value_hash_map` produces on `c8buf`. -/
def c8iter : HMIter :=
  { data := c8buf.drop 16, len := 1, index := 0, invalid := false, value := true,
    endian := .little }

/-! ## Claims C2, C3, C4, C5, C8 (BYML parser) -/

/-- C2: the claim says a buffer with a valid BYML magic and a version
outside 1..=7 fails to parse with a version error.  In the code,
`is_valid_version` (src/src/byml/mod.rs) is never called: `BymlIter::new`
and `Byml::from_binary` accept version 0 — the 16-byte header with magic
"BY" and version 0 parses successfully and materializes to Null. -/
theorem byml_version_never_checked :
    isValidVersion 0 = false ∧
      bymlIterNew c2buf = some ⟨c2buf, .big, none⟩ ∧
      bymlFromBinary c2buf = .ok .null := by
  refine ⟨rfl, rfl, rfl⟩

/-- C3: the claim says `get_file_data` on a File-kind node (tag 0xA2)
reads the size and payload.  The code pattern-matches
`BymlNode::Binary { .. }` instead of `File`, so every File node reference
yields `None`, and the materializer's File arm always fails with an
"Invalid file node" error. -/
theorem byml_get_file_data_matches_binary :
    (∀ (it : BymlIt) (off : Nat), getFileData it (.fileN off) = none) ∧
      ∀ (it : BymlIt) (fuel off : Nat),
        nodeToByml it (fuel + 1) (.fileN off) = .error .err :=
  ⟨fun _ _ => rfl, fun _ _ _ => rfl⟩

/-- C4: the claim says a Float entry with stored word `w` parses to the
f32 whose IEEE-754 bit pattern is `w`, for every `w`.  The code computes
`value as f32`, a numeric conversion: for `w = 1` the produced float is
1.0, whose bit pattern is 0x3F800000, not the claimed 1 (≈1.4e-45). -/
theorem byml_float_numeric_cast :
    bymlNodeNew 1 .floatT = .floatN 0x3F800000 ∧ (0x3F800000 : Nat) ≠ 1 := by
  constructor
  · show BymlNode.floatN (u32ToF32bits 1) = .floatN 0x3F800000
    rfl
  · decide

/-- C5: the claim says a ValueHashMap (tag 0x21) document materializes to
the `(Value, u32)` variant keeping the auxiliary word.  The code's
materializer collects into `Byml::HashMap` and its iterator never reads
the auxiliary word: `c5buf` (one entry, hash 5, Bool value, auxiliary
0x2A) materializes to `HashMap {5 ↦ true}` with the 0x2A lost. -/
theorem byml_value_hash_map_drops_aux :
    bymlFromBinary c5buf = .ok (.hashMap [(5, Byml.bool true)]) := by
  rfl

/-- C8: the claim says BYML iterators never panic, yielding `None` on
truncated regions.  For a ValueHashMap whose buffer holds at least
`4 + 9·count` but fewer than `4 + 13·count` bytes the constructor's
validity check passes, and `next` slices the tag-table position
`4 + 12·len + index` past the end of the buffer — a Rust panic.  `c8buf`
reaches it on the first `next` call. -/
theorem byml_vhm_iterator_panics :
    ((bymlIterNew c8buf).bind iterAsValueHashMap) = some c8iter ∧
      hmNext c8iter = .crash := by
  refine ⟨rfl, rfl⟩

/-! ## SARC reader (src/src/sarc/parse.rs, src/src/sarc/structs.rs) -/

/-- `ResFatEntry` (sarc module; field order per the TryRead impl in
src/src/sarc/structs.rs lines 91-108). -/
structure FatEntry where
  nameHash : Nat
  relNameOptOffset : Nat
  dataBegin : Nat
  dataEnd : Nat
deriving DecidableEq, Repr

/-- `ResFatEntry::try_read` at an absolute position: 16 bytes, four u32
fields. -/
def readFatEntry (e : REndian) (b : Bytes) (pos : Nat) : Option FatEntry :=
  if pos + 16 ≤ b.length then
    match readU32 e b pos, readU32 e b (pos + 4), readU32 e b (pos + 8),
        readU32 e b (pos + 12) with
    | some h, some r, some db, some de => some ⟨h, r, db, de⟩
    | _, _, _, _ => none
  else none

/-- The parsed `Sarc` reader state (src/src/sarc/parse.rs lines 76-86). -/
structure SarcP where
  numFiles : Nat
  entriesOffset : Nat
  hashMultiplier : Nat
  dataOffset : Nat
  namesOffset : Nat
  endian : REndian
  data : Bytes
deriving DecidableEq, Repr

/-- `Sarc::new` (src/src/sarc/parse.rs lines 132-204): the SARC header at
offset 4 (BOM detected from bytes 6..8), version 0x0100 and header size
0x14 required; the SFAT header at 20 with size 0x0C and the two top bits
of `num_files` clear; FAT entries at 32; the SFNT header at `32 + 16·n`
with size 8; and `data_offset` must not precede the name table.  (The
feature-gated Yaz0 pre-filter is an external collaborator and outside the
modelled core.) -/
def sarcNew (b : Bytes) : Option SarcP :=
  if b.length < 0x40 then none
  else if b.take 4 ≠ [83, 65, 82, 67] then none
  else
    match readBom b 6 with
    | none => none
    | some e =>
      match readU16 e b 4, readU32 e b 8, readU32 e b 12, readU16 e b 16 with
      | some headerSize, some _fileSize, some dataOffset, some version =>
        if version ≠ 0x100 then none
        else if headerSize ≠ 0x14 then none
        else if (b.drop 20).take 4 ≠ [83, 70, 65, 84] then none
        else
          match readU16 e b 24, readU16 e b 26, readU32 e b 28 with
          | some fatHeaderSize, some numFiles, some mult =>
            if fatHeaderSize ≠ 0x0C then none
            else if numFiles >>> 14 ≠ 0 then none
            else
              let fnt := 32 + 16 * numFiles
              if fnt + 8 ≤ b.length then
                if (b.drop fnt).take 4 ≠ [83, 70, 78, 84] then none
                else
                  match readU16 e b (fnt + 4), readU16 e b (fnt + 6) with
                  | some fntHeaderSize, some _reserved =>
                    if fntHeaderSize ≠ 8 then none
                    else if dataOffset < fnt + 8 then none
                    else some ⟨numFiles, 32, mult, dataOffset, fnt + 8, e, b⟩
                  | _, _ => none
              else none
          | _, _, _ => none
      | _, _, _, _ => none

/-- A borrowed `File` entry (name and data slice). -/
structure FileP where
  name : Option Bytes
  data : Bytes
deriving DecidableEq, Repr

/-- One step of `FileIterator::next` (src/src/sarc/parse.rs lines 32-69):
read the FAT entry at index `i`, resolve its name when
`rel_name_opt_offset` is nonzero (low 24 bits times 4 into the name
table, NUL-terminated UTF-8), and slice the data between
`data_offset + data_begin` and `data_offset + data_end` (u32 sums wrap).
Any failure ends iteration. -/
def sarcFileAtIdx (s : SarcP) (i : Nat) : Option FileP :=
  match readFatEntry s.endian s.data (s.entriesOffset + 16 * i) with
  | none => none
  | some ent =>
    let nameRes : Option (Option Bytes) :=
      if ent.relNameOptOffset ≠ 0 then
        let nameOffset := s.namesOffset + (ent.relNameOptOffset &&& 0xFFFFFF) * 4
        if nameOffset ≤ s.data.length then
          match findNull (s.data.drop nameOffset) with
          | some t =>
            let nm := (s.data.drop nameOffset).take t
            if validUtf8 nm then some (some nm) else none
          | none => none
        else none
      else some none
    match nameRes with
    | none => none
    | some nm =>
      match sliceGet s.data ((s.dataOffset + ent.dataBegin) % 2 ^ 32)
          ((s.dataOffset + ent.dataEnd) % 2 ^ 32) with
      | none => none
      | some d => some ⟨nm, d⟩

def sarcFilesAux (s : SarcP) : Nat → Nat → List FileP
  | 0, _ => []
  | k + 1, i =>
    match sarcFileAtIdx s i with
    | none => []
    | some f => f :: sarcFilesAux s k (i + 1)

/-- `Sarc::files` (src/src/sarc/parse.rs lines 324-336): iterate the FAT
entries in index order; the first failing entry ends iteration. -/
def sarcFiles (s : SarcP) : List FileP :=
  sarcFilesAux s s.numFiles 0

/-- `Sarc::guess_min_alignment` (src/src/sarc/parse.rs lines 340-356):
gcd accumulation starting from `MIN_ALIGNMENT = 4`, one iteration per
file; every iteration reads the entry at `entries_offset` — the loop
never advances over the entry table.  `none` models the `expect` panic on
an unreadable entry. -/
def guessMinAlignment (s : SarcP) : Option Nat :=
  match
    (List.range s.numFiles).foldl
      (fun acc _ =>
        match acc with
        | none => none
        | some g =>
          match readFatEntry s.endian s.data s.entriesOffset with
          | none => none
          | some ent => some (Nat.gcd g ((s.dataOffset + ent.dataBegin) % 2 ^ 32)))
      (some 4)
  with
  | none => none
  | some g => some (if isValidAlignment g then g else 4)

/-- The claim's reading of `guess_min_alignment` (claim C7 / spec §4.7),
written for comparison with the source embedding above: the GCD of
`data_offset + data_begin` over all file entries, falling back to 4 when
that GCD is not a valid power-of-two alignment. -/
def guessMinAlignmentClaim (s : SarcP) : Option Nat :=
  let vs := (List.range s.numFiles).mapM fun i =>
    (readFatEntry s.endian s.data (s.entriesOffset + 16 * i)).map fun ent =>
      (s.dataOffset + ent.dataBegin) % 2 ^ 32
  vs.map fun l =>
    let g := l.foldl Nat.gcd 0
    if isValidAlignment g then g else 4

/-! ## SARC writer (src/src/sarc/write.rs) -/

/-- `IndexMap` insertion: an existing key keeps its position and gets the
new value; a fresh key is appended.  Also models the `FxHashMap`
extension→alignment table, whose only observation is keyed lookup. -/
def idxInsert {α : Type} : List (Bytes × α) → Bytes → α → List (Bytes × α)
  | [], k, v => [(k, v)]
  | (k0, v0) :: rest, k, v =>
    if k = k0 then (k0, v) :: rest else (k0, v0) :: idxInsert rest k v

/-- Keyed lookup in an association list. -/
def idxGet {α : Type} : List (Bytes × α) → Bytes → Option α
  | [], _ => none
  | (k0, v0) :: rest, k => if k = k0 then some v0 else idxGet rest k

/-- `SarcWriter` (src/src/sarc/write.rs lines 42-51).  `files` is the
insertion-ordered IndexMap as a key-value list; `alignmentMap` the
extension→alignment table. -/
structure SarcWriterS where
  endian : REndian
  legacy : Bool
  hashMultiplier : Nat
  minAlignment : Nat
  alignmentMap : List (Bytes × Nat)
  files : List (Bytes × Bytes)
deriving DecidableEq, Repr

/-- The extension of a file name: everything after the last `.` (0x2E), or
empty (src/src/sarc/write.rs lines 378-382). -/
def extOf (name : Bytes) : Bytes :=
  match name.reverse.findIdx? (fun x => x = 46) with
  | some i => name.drop (name.length - i)
  | none => []

/-- `SarcWriter::is_file_sarc` (src/src/sarc/write.rs lines 335-338). -/
def isFileSarc (d : Bytes) : Bool :=
  decide (0x20 ≤ d.length) &&
    (d.take 4 = [83, 65, 82, 67] ∨
      (d.take 4 = [89, 97, 122, 48] ∧ (d.drop 0x11).take 4 = [83, 65, 82, 67]))

/-- `SarcWriter::get_alignment_for_new_binary_file` (src/src/sarc/write.rs
lines 340-364): sniff a BOM at 0xC, check the u32 file size at 0x1C, and
take `1 << data[0xE]`. -/
def getAlignmentForNewBinaryFile (d : Bytes) : Nat :=
  if d.length ≤ 0x20 then 1
  else
    match readBom d 0xC with
    | none => 1
    | some e =>
      match readU32 e d 0x1C with
      | none => 1
      | some fs => if fs ≠ d.length then 1 else 2 ^ d.getD 0xE 0

/-- `SarcWriter::get_alignment_for_cafe_bflim` (src/src/sarc/write.rs
lines 366-375): "FLIM" magic 0x28 bytes from the end, u16 BE alignment in
the last 8 bytes. -/
def getAlignmentForCafeBflim (d : Bytes) : Nat :=
  if d.length ≤ 0x28 then 1
  else if (d.drop (d.length - 0x28)).take 4 ≠ [70, 76, 73, 77] then 1
  else
    match readU16 .big d (d.length - 8) with
    | some a => a
    | none => 1

/-- `SarcWriter::get_alignment_for_file` (src/src/sarc/write.rs lines
377-397).  `fac` is the "factory" extension set (src/src/sarc/write.rs
`factory` submodule, not under src; modelled from the spec as an abstract
list parameter: "a static set of factory extension names ... that skip
binary-file sniffing outside legacy mode"). -/
def getAlignmentForFile (fac : List Bytes) (m : List (Bytes × Nat)) (minAlign : Nat)
    (legacy : Bool) (e : REndian) (name data : Bytes) : Nat :=
  let ext := extOf name
  let a1 :=
    match idxGet m ext with
    | some r => Nat.lcm minAlign r
    | none => minAlign
  let a2 := if legacy && isFileSarc data then Nat.lcm a1 0x2000 else a1
  if legacy || !(fac.contains ext) then
    let t := Nat.lcm a2 (getAlignmentForNewBinaryFile data)
    match e with
    | .big => Nat.lcm t (getAlignmentForCafeBflim data)
    | .little => t
  else a2

/-- `SarcWriter::add_default_alignments` (src/src/sarc/write.rs lines
269-283).  `aglenv` is the build-time AGLENV table (src/src/sarc/write.rs
`aglenv` submodule, not under src; modelled from the spec as an abstract
list parameter: "a static table of (extension → alignment) pairs derived
from the known AGLENV data").  `add_alignment_requirement` validates each
alignment (panicking otherwise); theorems that depend on positivity of the
resulting alignments carry it as a hypothesis. -/
def addDefaultAlignments (aglenv : List (Bytes × Nat)) (e : REndian)
    (m : List (Bytes × Nat)) : List (Bytes × Nat) :=
  let m1 := aglenv.foldl (fun acc p => idxInsert acc p.1 p.2) m
  let m2 := idxInsert m1 [107, 115, 107, 121] 8
  let m3 := idxInsert m2 [98, 107, 115, 107, 121] 8
  let m4 := idxInsert m3 [103, 116, 120] 0x2000
  let m5 := idxInsert m4 [115, 104, 97, 114, 99, 98] 0x1000
  let m6 := idxInsert m5 [115, 104, 97, 114, 99] 0x1000
  let m7 := idxInsert m6 [98, 97, 103, 108, 109, 102] 0x80
  idxInsert m7 [98, 102, 102, 110, 116]
    (match e with
      | .big => 0x2000
      | .little => 0x1000)

/-- The comparison `write` sorts by (src/src/sarc/write.rs lines 166-168):
`hash_name(HASH_MULTIPLIER, ·)` on the key, with the constant 0x65
multiplier. -/
def hashLe (f g : Bytes × Bytes) : Prop :=
  hashName 0x65 f.1 ≤ hashName 0x65 g.1

instance : DecidableRel hashLe := fun f g =>
  Nat.decLe (hashName 0x65 f.1) (hashName 0x65 g.1)

instance : IsTotal (Bytes × Bytes) hashLe :=
  ⟨fun f g => Nat.le_total (hashName 0x65 f.1) (hashName 0x65 g.1)⟩

instance : IsTrans (Bytes × Bytes) hashLe :=
  ⟨fun _ _ _ h1 h2 => Nat.le_trans h1 h2⟩

/-- The FAT-entry computation inside `SarcWriter::write` (src/src/sarc/
write.rs lines 170-193): per sorted file, the alignment-advanced relative
data cursor gives `data_begin`/`data_end`, and the running relative string
offset gives `rel_name_opt_offset = 1 << 24 | (rel_string_offset / 4)`. -/
def entriesCalc (mult : Nat) : List ((Bytes × Bytes) × Nat) → Nat → Nat → List FatEntry
  | [], _, _ => []
  | ((name, data), a) :: rest, relStr, relData =>
    let b := alignUp relData a
    ⟨hashName mult name, 2 ^ 24 ||| relStr / 4, b, b + data.length⟩ ::
      entriesCalc mult rest (relStr + alignUp (name.length + 1) 4) (b + data.length)

/-- One file-name block of the SFNT section (src/src/sarc/write.rs lines
203-207): the name, its NUL terminator, and zero padding up to the next
4-byte boundary (the name table starts 4-aligned). -/
def nameBlock (name : Bytes) : Bytes :=
  name ++ [0] ++ List.replicate (alignUp (name.length + 1) 4 - (name.length + 1)) 0

/-- The data-payload section (src/src/sarc/write.rs lines 214-217): each
file's data written at the alignment-advanced absolute cursor, with zero
padding in the gaps (the output buffer is zero-initialized). -/
def payloadBuild : List (Bytes × Nat) → Nat → Bytes
  | [], _ => []
  | (d, a) :: rest, cur =>
    let p := alignUp cur a
    List.replicate (p - cur) 0 ++ d ++ payloadBuild rest (p + d.length)

/-- The absolute cursor after the data payload, i.e. the written
`file_size`. -/
def payloadEnd : List (Bytes × Nat) → Nat → Nat
  | [], cur => cur
  | (d, a) :: rest, cur => payloadEnd rest (alignUp cur a + d.length)

/-- All layout quantities `SarcWriter::write` computes. -/
structure WLayout where
  sorted : List (Bytes × Bytes)
  aligns : List Nat
  entries : List FatEntry
  namesOff : Nat
  namesEnd : Nat
  reqAlign : Nat
  dob : Nat
  fileSize : Nat
deriving Repr

/-- The layout phase of `SarcWriter::write` (src/src/sarc/write.rs lines
150-236): sort the files by name hash (modelled by a stable insertion
sort; `sort_unstable_by` fixes no order on equal hashes), apply the
default alignments, compute each file's alignment and FAT entry, place the
name table at `0x28 + 16·n`, and align the global data offset to the
fold-accumulated `lcm` of the alignments. -/
def sarcWriteLayout (aglenv : List (Bytes × Nat)) (fac : List Bytes)
    (st : SarcWriterS) : WLayout :=
  let sorted := List.insertionSort hashLe st.files
  let m := addDefaultAlignments aglenv st.endian st.alignmentMap
  let aligns := sorted.map fun f =>
    getAlignmentForFile fac m st.minAlignment st.legacy st.endian f.1 f.2
  let entries := entriesCalc st.hashMultiplier (sorted.zip aligns) 0 0
  let namesOff := 0x28 + 16 * sorted.length
  let namesEnd := namesOff + (sorted.map fun f => (nameBlock f.1).length).sum
  let ra := aligns.foldl Nat.lcm 1
  let dob := alignUp namesEnd ra
  let fileSize := payloadEnd ((sorted.map fun f => f.2).zip aligns) dob
  ⟨sorted, aligns, entries, namesOff, namesEnd, ra, dob, fileSize⟩

/-- The 16 bytes of one FAT entry as `write` emits them. -/
def fatEntryBytes (e : REndian) (ent : FatEntry) : Bytes :=
  w32 e ent.nameHash ++ w32 e ent.relNameOptOffset ++ w32 e ent.dataBegin ++
    w32 e ent.dataEnd

/-- The bytes a successful `SarcWriter::write` emits (src/src/sarc/write.rs
lines 150-236), assembled region by region: SARC header (patched last in
the Rust code, at the same positions), SFAT header, FAT entries, SFNT
header, name table, zero padding up to the aligned data offset, and the
data payload.  The output is truncated to the written `file_size`.
`write` itself can fail — every region write errors when its end exceeds
the caller's buffer — so `sarcToBinary` below pairs these bytes with
`to_binary`'s capacity check; this function is the success path only. -/
def sarcWriteBytes (aglenv : List (Bytes × Nat)) (fac : List Bytes)
    (st : SarcWriterS) : Bytes :=
  let L := sarcWriteLayout aglenv fac st
  let e := st.endian
  [83, 65, 82, 67] ++ w16 e 0x14 ++ bomBytes e ++ w32 e L.fileSize ++ w32 e L.dob ++
    w16 e 0x100 ++ w16 e 0 ++
    ([83, 70, 65, 84] ++ w16 e 0xC ++ w16 e L.sorted.length ++ w32 e st.hashMultiplier) ++
    (L.entries.map (fatEntryBytes e)).flatten ++
    ([83, 70, 78, 84] ++ w16 e 8 ++ w16 e 0) ++
    (L.sorted.map fun f => nameBlock f.1).flatten ++
    List.replicate (L.dob - L.namesEnd) 0 ++
    payloadBuild ((L.sorted.map fun f => f.2).zip L.aligns) L.dob

/-- The named entries of an archive, in archive order, as `(name, data)`
pairs — the stream `SarcWriter::from_sarc` collects. -/
def namedPairs (s : SarcP) : List (Bytes × Bytes) :=
  (sarcFiles s).filterMap fun f => f.name.map fun n => (n, f.data)

/-- `SarcWriter::from_sarc` (src/src/sarc/write.rs lines 98-112): default
configuration (not legacy, hash multiplier 0x65, empty alignment map),
minimum alignment from `guess_min_alignment` (whose `expect` panic is
modelled by `none`), files collected into an IndexMap from the named
entries. -/
def sarcFromSarc (s : SarcP) : Option SarcWriterS :=
  match guessMinAlignment s with
  | none => none
  | some ma =>
    some { endian := s.endian, legacy := false, hashMultiplier := 0x65,
           minAlignment := ma, alignmentMap := [],
           files := (namedPairs s).foldl (fun m p => idxInsert m p.1 p.2) [] }

/-- Round `x` to the nearest multiple of `2 ^ k`, ties to the even
multiple (IEEE-754 round-to-nearest-even at granularity `2 ^ k`). -/
def roundEvenAt (k x : Nat) : Nat :=
  if k = 0 then x
  else
    let q := x / 2 ^ k
    let r := x % 2 ^ k
    let h := 2 ^ (k - 1)
    if r < h then q * 2 ^ k
    else if h < r then (q + 1) * 2 ^ k
    else if q % 2 = 0 then q * 2 ^ k else (q + 1) * 2 ^ k

/-- The value of `x as f32` for a natural `x` (round to nearest even at 24
significand bits), as a natural number — such a rounding of a natural is
again a natural.  Exact below `2 ^ 24`; the `f32` overflow threshold
(`2 ^ 128`) is far outside any size the SARC format can express. -/
def roundF32 (x : Nat) : Nat :=
  roundEvenAt (floorLog2 x - 23) x

/-- The value of `(x as f32 * 1.5) as usize`: with `v = roundF32 x`, the
real product is `3·v / 2`; `t = 3·v` is twice the product, so the product
lies in `[2^(L-1), 2^L)` for `L = floorLog2 t` and its f32 ulp is
`2^(L-24)` — `2^(L-23)` in doubled units — whence the rounding below;
the final `as usize` truncates toward zero, i.e. halves with floor. -/
def mulThreeHalvesF32 (x : Nat) : Nat :=
  let t := 3 * roundF32 x
  roundEvenAt (floorLog2 t - 23) t / 2

/-- `SarcWriter::est_size` (src/src/sarc/write.rs lines 131-145): 1.5
times the unaligned content size, computed in `f32` and truncated back to
`usize`.  The constant 0x28 is `MAGIC.len + size_of(ResHeader) +
MAGIC.len + size_of(ResFatHeader) + MAGIC.len + size_of(ResFntHeader)` =
4+16+4+8+4+4, the struct sizes read off the sequential u16/u32 field
writes of the TryWrite impls in src/src/sarc/structs.rs.  Note the
estimate ignores alignment padding entirely. -/
def estSize (st : SarcWriterS) : Nat :=
  mulThreeHalvesF32
    (0x28 + (st.files.map fun p => 0x10 + alignUp (p.1.length + 1) 4 + p.2.length).sum)

/-- `SarcWriter::to_binary` (src/src/sarc/write.rs lines 117-129): a
buffer of `est_size` zero bytes is allocated and `write` runs into it;
`write`'s initial `buf.len() < est_size` check passes by construction, and
its region writes (through the byte crate) fail exactly when a write's end
exceeds the allocation — the largest offset any write touches is the final
`file_size` — turning into `to_binary`'s `expect` panic, here `none`.  On
success the buffer is truncated to the written `file_size`. -/
def sarcToBinary (aglenv : List (Bytes × Nat)) (fac : List Bytes)
    (st : SarcWriterS) : Option Bytes :=
  if (sarcWriteLayout aglenv fac st).fileSize ≤ estSize st then
    some (sarcWriteBytes aglenv fac st)
  else none

/-! ## Claim C7 (guess_min_alignment) -/

/-- An 82-byte little-endian SARC: two nameless entries with
`data_begin` 8 and 10, `data_offset` 72, hash multiplier 0x65. -/
def c7buf : Bytes :=
  [83, 65, 82, 67, 20, 0, 0xff, 0xfe, 82, 0, 0, 0, 72, 0, 0, 0, 0, 1, 0, 0] ++
    [83, 70, 65, 84, 12, 0, 2, 0, 0x65, 0, 0, 0] ++
    [1, 0, 0, 0, 0, 0, 0, 0, 8, 0, 0, 0, 8, 0, 0, 0] ++
    [2, 0, 0, 0, 0, 0, 0, 0, 10, 0, 0, 0, 10, 0, 0, 0] ++
    [83, 70, 78, 84, 8, 0, 0, 0] ++
    List.replicate 10 0

/-- The reader state `Sarc::new` produces on `c7buf`. -/
def c7sarc : SarcP :=
  ⟨2, 32, 0x65, 72, 72, .little, c7buf⟩

/-- C7 counterexample: for `c7buf` the entry values
`data_offset + data_begin` are 80 and 82, whose GCD is 2 — a valid
power-of-two alignment, so the claim says `guess_min_alignment` returns 2.
The code returns 4: its loop never advances past the first FAT entry
(`entries_offset` is read on every iteration) and the gcd accumulator is
seeded with `MIN_ALIGNMENT = 4`, giving `gcd 4 80 = 4`. -/
theorem sarc_guess_min_alignment_cx :
    sarcNew c7buf = some c7sarc ∧
      guessMinAlignment c7sarc = some 4 ∧
      guessMinAlignmentClaim c7sarc = some 2 ∧ (4 : Nat) ≠ 2 := by
  exact ⟨by rfl, by rfl, by rfl, by decide⟩

/-- gcd with 4 always yields a valid power-of-two alignment (1, 2 or 4). -/
theorem isValidAlignment_gcd_four (v : Nat) : isValidAlignment (Nat.gcd 4 v) = true := by
  have hdvd : Nat.gcd 4 v ∣ 4 := Nat.gcd_dvd_left 4 v
  have hpos : 0 < Nat.gcd 4 v := Nat.gcd_pos_of_pos_left v (by norm_num)
  have hle : Nat.gcd 4 v ≤ 4 := Nat.le_of_dvd (by norm_num) hdvd
  interval_cases h : Nat.gcd 4 v <;> revert hdvd <;> decide

/-- Helper shared by the C7 analysis and the round-trip proof: the exact
value `guess_min_alignment` computes when the first FAT entry is
readable. -/
theorem guess_first_entry (s : SarcP) (ent : FatEntry)
    (h0 : s.numFiles ≠ 0)
    (hread : readFatEntry s.endian s.data s.entriesOffset = some ent) :
    guessMinAlignment s =
      some (Nat.gcd 4 ((s.dataOffset + ent.dataBegin) % 2 ^ 32)) := by
  unfold guessMinAlignment
  simp only [hread]
  have hfold : ∀ n : Nat, n ≠ 0 →
      (List.range n).foldl
        (fun acc _ =>
          match acc with
          | none => none
          | some g => some (Nat.gcd g ((s.dataOffset + ent.dataBegin) % 2 ^ 32)))
        (some 4) =
        some (Nat.gcd 4 ((s.dataOffset + ent.dataBegin) % 2 ^ 32)) := by
    intro n hn
    induction n with
    | zero => exact absurd rfl hn
    | succ m ih =>
      rw [List.range_succ, List.foldl_append]
      rcases eq_or_ne m 0 with hm | hm
      · subst hm; rfl
      · rw [ih hm]
        show some (Nat.gcd (Nat.gcd 4 ((s.dataOffset + ent.dataBegin) % 2 ^ 32))
          ((s.dataOffset + ent.dataBegin) % 2 ^ 32)) = _
        rw [Nat.gcd_assoc, Nat.gcd_self]
  rw [hfold s.numFiles h0]
  simp [isValidAlignment_gcd_four]

/-- C7 amended: `guess_min_alignment` returns `gcd 4 v₀` where `v₀` is
`data_offset + data_begin` of the FIRST FAT entry only (the loop body
re-reads the entry at `entries_offset` on every iteration instead of
advancing, and the gcd is seeded with the constant 4); the result is
always a valid power-of-two alignment, so the fallback never fires. -/
theorem sarc_guess_min_alignment_first_entry (s : SarcP) (ent : FatEntry)
    (h0 : s.numFiles ≠ 0)
    (hread : readFatEntry s.endian s.data s.entriesOffset = some ent) :
    guessMinAlignment s =
      some (Nat.gcd 4 ((s.dataOffset + ent.dataBegin) % 2 ^ 32)) :=
  guess_first_entry s ent h0 hread

/-- Witness for C7 amended at the concrete archive `c7sarc`. -/
theorem sarc_guess_min_alignment_first_entry_witness :
    guessMinAlignment c7sarc = some 4 := by
  have h := sarc_guess_min_alignment_first_entry c7sarc ⟨1, 0, 8, 8⟩ (by decide) (by rfl)
  exact h.trans (by decide)

/-! ## Claim C10 (from_sarc collects named entries) -/

theorem idxGet_append_none {α : Type} (m1 m2 : List (Bytes × α)) (k : Bytes)
    (h : idxGet m1 k = none) : idxGet (m1 ++ m2) k = idxGet m2 k := by
  induction m1 with
  | nil => simp
  | cons p rest ih =>
    by_cases hk : k = p.1
    · simp [idxGet, hk] at h
    · simp only [idxGet, if_neg hk] at h
      simpa [idxGet, hk] using ih h

theorem idxInsert_append {α : Type} (m : List (Bytes × α)) (k : Bytes) (v : α)
    (h : idxGet m k = none) : idxInsert m k v = m ++ [(k, v)] := by
  induction m with
  | nil => simp [idxInsert]
  | cons p rest ih =>
    by_cases hk : k = p.1
    · simp [idxGet, hk] at h
    · simp only [idxGet, hk, if_neg hk] at h
      simp only [idxInsert, if_neg hk, List.cons_append, List.cons.injEq, true_and]
      exact ih h

theorem foldl_idxInsert_nodup {α : Type} :
    ∀ (l m : List (Bytes × α)), (∀ p ∈ l, idxGet m p.1 = none) →
      (l.map Prod.fst).Nodup →
      l.foldl (fun acc p => idxInsert acc p.1 p.2) m = m ++ l := by
  intro l
  induction l with
  | nil => intro m _ _; simp
  | cons p rest ih =>
    intro m hget hnd
    have hcons : (p.1 :: rest.map Prod.fst).Nodup := by simpa using hnd
    have h1 : idxInsert m p.1 p.2 = m ++ [(p.1, p.2)] := by
      rw [idxInsert_append m p.1 p.2 (hget p (by simp))]
    simp only [List.foldl_cons, h1]
    have hnd2 : (rest.map Prod.fst).Nodup := hcons.of_cons
    have hhead : ∀ q ∈ rest, q.1 ≠ p.1 := by
      intro q hq hqe
      exact (List.nodup_cons.mp hcons).1
        (by rw [← hqe]; exact List.mem_map_of_mem Prod.fst hq)
    have hget2 : ∀ q ∈ rest, idxGet (m ++ [(p.1, p.2)]) q.1 = none := by
      intro q hq
      rw [idxGet_append_none m _ q.1 (hget q (List.mem_cons_of_mem p hq))]
      simp [idxGet, hhead q hq]
    rw [ih (m ++ [(p.1, p.2)]) hget2 hnd2, List.append_assoc]
    rfl

theorem alignUp_dvd (pos a : Nat) (h : 0 < a) : a ∣ alignUp pos a := by
  unfold alignUp
  rcases eq_or_ne (pos % a) 0 with h0 | h0
  · rw [h0]
    simpa using Nat.dvd_of_mod_eq_zero h0
  · have hr : pos % a < a := Nat.mod_lt _ h
    have h1 : (a - pos % a) % a = a - pos % a := Nat.mod_eq_of_lt (by omega)
    refine Nat.dvd_of_mod_eq_zero ?_
    rw [h1]
    have hle : pos % a ≤ pos := Nat.mod_le pos a
    have h2 : pos + (a - pos % a) = pos - pos % a + a := by clear h1; omega
    rw [h2, Nat.add_mod_right]
    have h3 : pos - pos % a = a * (pos / a) :=
      Nat.sub_eq_of_eq_add (Nat.div_add_mod pos a).symm
    rw [h3, Nat.mul_mod_right]

theorem alignUp_le (pos a : Nat) : pos ≤ alignUp pos a :=
  Nat.le_add_right _ _

theorem entriesCalc_length (mult : Nat) :
    ∀ (l : List ((Bytes × Bytes) × Nat)) (rs rd : Nat),
      (entriesCalc mult l rs rd).length = l.length := by
  intro l
  induction l with
  | nil => intro rs rd; rfl
  | cons p rest ih =>
    intro rs rd
    obtain ⟨⟨nm, d⟩, a⟩ := p
    simpa [entriesCalc] using ih _ _

theorem entriesCalc_begin_dvd (mult : Nat) :
    ∀ (l : List ((Bytes × Bytes) × Nat)) (rs rd i : Nat), i < l.length →
      (∀ p ∈ l, 0 < p.2) →
      (l.getD i (([], []), 1)).2 ∣
        ((entriesCalc mult l rs rd).getD i ⟨0, 0, 0, 0⟩).dataBegin := by
  intro l
  induction l with
  | nil => intro rs rd i hi; exact absurd hi (by simp)
  | cons p rest ih =>
    intro rs rd i hi hpos
    obtain ⟨⟨nm, d⟩, a⟩ := p
    cases i with
    | zero =>
      show a ∣ (alignUp rd a : Nat)
      exact alignUp_dvd rd a (hpos ((nm, d), a) (by simp))
    | succ j =>
      have hj : j < rest.length := by simpa using hi
      have hposr : ∀ p ∈ rest, 0 < p.2 := fun q hq =>
        hpos q (List.mem_cons_of_mem _ hq)
      simpa [entriesCalc] using ih _ _ j hj hposr

theorem foldl_lcm_dvd_init : ∀ (l : List Nat) (c : Nat), c ∣ l.foldl Nat.lcm c := by
  intro l
  induction l with
  | nil => intro c; simp
  | cons a rest ih =>
    intro c
    exact Nat.dvd_trans (Nat.dvd_lcm_left c a) (ih (Nat.lcm c a))

theorem mem_dvd_foldl_lcm : ∀ (l : List Nat) (c a : Nat), a ∈ l → a ∣ l.foldl Nat.lcm c := by
  intro l
  induction l with
  | nil => intro c a h; cases h
  | cons b rest ih =>
    intro c a h
    rcases List.mem_cons.mp h with h1 | h1
    · subst h1
      exact Nat.dvd_trans (Nat.dvd_lcm_right c a) (foldl_lcm_dvd_init rest (Nat.lcm c a))
    · exact ih _ a h1

theorem foldl_lcm_pos : ∀ (l : List Nat) (c : Nat), 0 < c → (∀ a ∈ l, 0 < a) →
    0 < l.foldl Nat.lcm c := by
  intro l
  induction l with
  | nil => intro c hc _; simpa
  | cons b rest ih =>
    intro c hc hall
    refine ih _ (Nat.lcm_pos hc (hall b (by simp))) fun a ha =>
      hall a (List.mem_cons_of_mem b ha)

/-- C9: for every layout a successful `SarcWriter::write` computes (a call
that panics — a zero sniffed alignment — is not successful, whence the
positivity hypothesis), every entry satisfies
`(data_offset_begin + data_begin) % alignment = 0`, and the global data
offset is a multiple of the fold-accumulated LCM of all alignments. -/
theorem sarc_write_alignment_correct (aglenv : List (Bytes × Nat)) (fac : List Bytes)
    (st : SarcWriterS) (L : WLayout) (hL : sarcWriteLayout aglenv fac st = L)
    (hpos : ∀ a ∈ L.aligns, 0 < a) :
    (∀ i, i < L.entries.length → i < L.aligns.length →
        (L.dob + (L.entries.getD i ⟨0, 0, 0, 0⟩).dataBegin) % L.aligns.getD i 1 = 0) ∧
      L.dob % L.reqAlign = 0 := by
  subst hL
  have haligns : (sarcWriteLayout aglenv fac st).aligns =
      (List.insertionSort hashLe st.files).map fun f =>
        getAlignmentForFile fac (addDefaultAlignments aglenv st.endian st.alignmentMap)
          st.minAlignment st.legacy st.endian f.1 f.2 := rfl
  have hentries : (sarcWriteLayout aglenv fac st).entries =
      entriesCalc st.hashMultiplier
        ((List.insertionSort hashLe st.files).zip (sarcWriteLayout aglenv fac st).aligns)
        0 0 := rfl
  have hreq : (sarcWriteLayout aglenv fac st).reqAlign =
      (sarcWriteLayout aglenv fac st).aligns.foldl Nat.lcm 1 := rfl
  have hdob : (sarcWriteLayout aglenv fac st).dob =
      alignUp (sarcWriteLayout aglenv fac st).namesEnd
        (sarcWriteLayout aglenv fac st).reqAlign := rfl
  have hreqpos : 0 < (sarcWriteLayout aglenv fac st).reqAlign := by
    rw [hreq]
    exact foldl_lcm_pos _ 1 (by norm_num) hpos
  have hdobdvd : (sarcWriteLayout aglenv fac st).reqAlign ∣
      (sarcWriteLayout aglenv fac st).dob := by
    rw [hdob]
    exact alignUp_dvd _ _ hreqpos
  constructor
  · intro i hi hia
    set A := (sarcWriteLayout aglenv fac st).aligns with hA
    have hilen : i < (List.insertionSort hashLe st.files).length := by
      have hmap : A.length = (List.insertionSort hashLe st.files).length := by
        rw [haligns, List.length_map]
      omega
    have hzlen : i < ((List.insertionSort hashLe st.files).zip A).length := by
      rw [List.length_zip]
      omega
    have hai : A.getD i 1 ∈ A := by
      rw [List.getD_eq_getElem A 1 hia]
      exact List.getElem_mem hia
    have haipos : 0 < A.getD i 1 := hpos _ hai
    have haidvd_dob : A.getD i 1 ∣ (sarcWriteLayout aglenv fac st).dob := by
      refine Nat.dvd_trans ?_ hdobdvd
      rw [hreq]
      exact mem_dvd_foldl_lcm A 1 _ hai
    have hzip2 : (((List.insertionSort hashLe st.files).zip A).getD i (([], []), 1)).2 =
        A.getD i 1 := by
      rw [List.getD_eq_getElem _ _ hzlen, List.getD_eq_getElem A 1 hia]
      rw [List.getElem_zip]
    have hzpos : ∀ p ∈ (List.insertionSort hashLe st.files).zip A, 0 < p.2 := by
      intro p hp
      exact hpos p.2 (List.of_mem_zip hp).2
    have hbegin : A.getD i 1 ∣
        (((sarcWriteLayout aglenv fac st).entries).getD i ⟨0, 0, 0, 0⟩).dataBegin := by
      rw [hentries]
      have h5 := entriesCalc_begin_dvd st.hashMultiplier
        ((List.insertionSort hashLe st.files).zip A) 0 0 i hzlen hzpos
      rwa [hzip2] at h5
    exact Nat.mod_eq_zero_of_dvd (Nat.dvd_add haidvd_dob hbegin)
  · exact Nat.mod_eq_zero_of_dvd hdobdvd

/-- A two-file writer in the default configuration, for the C9 witness. -/
def c9st : SarcWriterS :=
  ⟨.little, false, 0x65, 4, [], [([97], [1, 2, 3]), ([98], [4])]⟩

/-- Witness for C9 at the concrete writer `c9st` (with the external
alignment tables empty). -/
theorem sarc_write_alignment_correct_witness :
    (∀ i, i < (sarcWriteLayout [] [] c9st).entries.length →
        i < (sarcWriteLayout [] [] c9st).aligns.length →
        ((sarcWriteLayout [] [] c9st).dob +
            ((sarcWriteLayout [] [] c9st).entries.getD i ⟨0, 0, 0, 0⟩).dataBegin) %
          (sarcWriteLayout [] [] c9st).aligns.getD i 1 = 0) ∧
      (sarcWriteLayout [] [] c9st).dob % (sarcWriteLayout [] [] c9st).reqAlign = 0 :=
  sarc_write_alignment_correct [] [] c9st (sarcWriteLayout [] [] c9st) rfl (by decide)

/-! ## Claim C1 (SARC round trip): generic byte-extraction lemmas -/

@[simp] theorem w16_length (e : REndian) (v : Nat) : (w16 e v).length = 2 := by
  cases e <;> rfl

@[simp] theorem w32_length (e : REndian) (v : Nat) : (w32 e v).length = 4 := by
  cases e <;> rfl

@[simp] theorem bomBytes_length (e : REndian) : (bomBytes e).length = 2 := by
  cases e <;> rfl

theorem readU16_drop (e : REndian) (b : Bytes) (pos k : Nat) :
    readU16 e (b.drop pos) k = readU16 e b (pos + k) := by
  unfold readU16
  rw [List.getElem?_drop, List.getElem?_drop]
  have h1 : pos + (k + 1) = pos + k + 1 := by omega
  rw [h1]

theorem readU32_drop (e : REndian) (b : Bytes) (pos k : Nat) :
    readU32 e (b.drop pos) k = readU32 e b (pos + k) := by
  unfold readU32
  rw [List.getElem?_drop, List.getElem?_drop, List.getElem?_drop, List.getElem?_drop]
  have h1 : pos + (k + 1) = pos + k + 1 := by omega
  have h2 : pos + (k + 2) = pos + k + 2 := by omega
  have h3 : pos + (k + 3) = pos + k + 3 := by omega
  rw [h1, h2, h3]

theorem readBom_drop (b : Bytes) (pos k : Nat) :
    readBom (b.drop pos) k = readBom b (pos + k) := by
  unfold readBom
  rw [List.getElem?_drop, List.getElem?_drop]
  have h1 : pos + (k + 1) = pos + k + 1 := by omega
  rw [h1]

theorem readU16_w16_self (e : REndian) (v : Nat) (rest : Bytes) (h : v < 2 ^ 16) :
    readU16 e (w16 e v ++ rest) 0 = some v := by
  cases e <;> simp [readU16, w16] <;> omega

theorem readU32_w32_self (e : REndian) (v : Nat) (rest : Bytes) (h : v < 2 ^ 32) :
    readU32 e (w32 e v ++ rest) 0 = some v := by
  cases e <;> simp [readU32, w32] <;> omega

theorem readBom_bom_self (e : REndian) (rest : Bytes) :
    readBom (bomBytes e ++ rest) 0 = some e := by
  cases e <;> simp [readBom, bomBytes]

theorem drop_from (b pre rest : Bytes) (pos k : Nat) (hpos : b.drop pos = pre ++ rest)
    (hlen : pre.length = k) : b.drop (pos + k) = rest := by
  rw [← List.drop_drop, hpos, List.drop_left' hlen]

theorem lor_two_pow_eq_add {k x : Nat} (h : x < 2 ^ k) : 2 ^ k ||| x = 2 ^ k + x := by
  refine Nat.eq_of_testBit_eq fun i => ?_
  rw [Nat.testBit_lor]
  rcases Nat.lt_trichotomy i k with hik | hik | hik
  · rw [Nat.testBit_two_pow_of_ne (by omega), Nat.testBit_two_pow_add_gt hik]
    simp
  · subst hik
    rw [Nat.testBit_two_pow_self, Nat.testBit_two_pow_add_eq,
      Nat.testBit_lt_two_pow h]
    simp
  · have hx : x < 2 ^ i := lt_of_lt_of_le h (Nat.pow_le_pow_right (by norm_num) (by omega))
    have hsum : 2 ^ k + x < 2 ^ i := by
      have h2 : 2 ^ k + x < 2 ^ (k + 1) := by
        have : (2 : Nat) ^ (k + 1) = 2 ^ k + 2 ^ k := by ring
        omega
      exact lt_of_lt_of_le h2 (Nat.pow_le_pow_right (by norm_num) (by omega))
    rw [Nat.testBit_two_pow_of_ne (by omega), Nat.testBit_lt_two_pow hx,
      Nat.testBit_lt_two_pow hsum]
    rfl

theorem hashName_lt (mul : Nat) (name : Bytes) : hashName mul name < 2 ^ 32 := by
  unfold hashName
  have haux : ∀ (l : Bytes) (h : Nat), h < 2 ^ 32 →
      l.foldl (fun h b => (h * mul + b) % 2 ^ 32) h < 2 ^ 32 := by
    intro l
    induction l with
    | nil => intro h hh; simpa
    | cons c rest ih =>
      intro h _
      exact ih _ (Nat.mod_lt _ (by norm_num))
  exact haux name 0 (by norm_num)

@[simp] theorem alignUp_zero (a : Nat) : alignUp 0 a = 0 := by
  simp [alignUp]

theorem alignUp_add_multiple (D cur a : Nat) (h : a ∣ D) :
    alignUp (D + cur) a = D + alignUp cur a := by
  rcases eq_or_ne a 0 with ha | ha
  · subst ha
    obtain rfl : D = 0 := by simpa using h
    simp
  · have hmod : (D + cur) % a = cur % a := by
      obtain ⟨c, rfl⟩ := h
      rw [Nat.add_comm (a * c) cur, Nat.add_mul_mod_self_left]
    unfold alignUp
    rw [hmod]
    omega

/-! ## C1: structural lemmas about the writer's layout recursions -/

/-- Default FAT entry used with `List.getD`. -/
def entDflt : FatEntry := ⟨0, 0, 0, 0⟩

/-- Default file-alignment pair used with `List.getD`. -/
def pDflt : (Bytes × Bytes) × Nat := (([], []), 1)

/-- The running relative string offsets of the name table, mirroring the
`rel_string_offset` accumulator of `SarcWriter::write`. -/
def nameOffsets : List ((Bytes × Bytes) × Nat) → Nat → List Nat
  | [], _ => []
  | p :: rest, rs => rs :: nameOffsets rest (rs + alignUp (p.1.1.length + 1) 4)

theorem nameBlock_length (nm : Bytes) :
    (nameBlock nm).length = alignUp (nm.length + 1) 4 := by
  have h := alignUp_le (nm.length + 1) 4
  simp [nameBlock]
  omega

theorem fatEntryBytes_length (e : REndian) (ent : FatEntry) :
    (fatEntryBytes e ent).length = 16 := by
  simp [fatEntryBytes]

theorem flat_entries_length (e : REndian) (ents : List FatEntry) :
    ((ents.map (fatEntryBytes e)).flatten).length = 16 * ents.length := by
  induction ents with
  | nil => rfl
  | cons ent rest ih =>
    simp only [List.map_cons, List.flatten_cons, List.length_append, ih,
      fatEntryBytes_length, List.length_cons]
    ring

theorem payloadEnd_le : ∀ (l : List (Bytes × Nat)) (cur : Nat), cur ≤ payloadEnd l cur := by
  intro l
  induction l with
  | nil => intro cur; exact Nat.le_refl cur
  | cons p rest ih =>
    intro cur
    obtain ⟨d, a⟩ := p
    calc cur ≤ alignUp cur a := alignUp_le cur a
      _ ≤ alignUp cur a + d.length := Nat.le_add_right _ _
      _ ≤ payloadEnd rest (alignUp cur a + d.length) := ih _

theorem payloadBuild_length : ∀ (l : List (Bytes × Nat)) (cur : Nat),
    (payloadBuild l cur).length = payloadEnd l cur - cur := by
  intro l
  induction l with
  | nil => intro cur; simp [payloadBuild, payloadEnd]
  | cons p rest ih =>
    intro cur
    obtain ⟨d, a⟩ := p
    have h1 := alignUp_le cur a
    have h2 := payloadEnd_le rest (alignUp cur a + d.length)
    simp only [payloadBuild, payloadEnd, List.length_append, List.length_replicate, ih]
    omega

theorem payloadEnd_shift (D : Nat) : ∀ (l : List (Bytes × Nat)) (cur : Nat),
    (∀ p ∈ l, p.2 ∣ D) → payloadEnd l (D + cur) = D + payloadEnd l cur := by
  intro l
  induction l with
  | nil => intro cur _; rfl
  | cons p rest ih =>
    intro cur hdvd
    obtain ⟨d, a⟩ := p
    show payloadEnd rest (alignUp (D + cur) a + d.length) = _
    rw [alignUp_add_multiple D cur a (hdvd (d, a) (by simp))]
    have h2 : D + alignUp cur a + d.length = D + (alignUp cur a + d.length) := by omega
    rw [h2, ih _ fun q hq => hdvd q (List.mem_cons_of_mem _ hq)]
    rfl

theorem entriesCalc_begin_ge (mult : Nat) :
    ∀ (l : List ((Bytes × Bytes) × Nat)) (rs rd i : Nat), i < l.length →
      rd ≤ ((entriesCalc mult l rs rd).getD i entDflt).dataBegin := by
  intro l
  induction l with
  | nil => intro rs rd i hi; exact absurd hi (by simp)
  | cons p rest ih =>
    intro rs rd i hi
    obtain ⟨⟨nm, d⟩, a⟩ := p
    cases i with
    | zero => exact alignUp_le rd a
    | succ j =>
      have hj : j < rest.length := by simpa using hi
      have h1 := ih (rs + alignUp (nm.length + 1) 4) (alignUp rd a + d.length) j hj
      have h2 := alignUp_le rd a
      show rd ≤ ((entriesCalc mult rest _ _).getD j entDflt).dataBegin
      omega

theorem entriesCalc_end_eq (mult : Nat) :
    ∀ (l : List ((Bytes × Bytes) × Nat)) (rs rd i : Nat), i < l.length →
      ((entriesCalc mult l rs rd).getD i entDflt).dataEnd =
        ((entriesCalc mult l rs rd).getD i entDflt).dataBegin +
          (l.getD i pDflt).1.2.length := by
  intro l
  induction l with
  | nil => intro rs rd i hi; exact absurd hi (by simp)
  | cons p rest ih =>
    intro rs rd i hi
    obtain ⟨⟨nm, d⟩, a⟩ := p
    cases i with
    | zero => rfl
    | succ j =>
      have hj : j < rest.length := by simpa using hi
      exact ih _ _ j hj

theorem entriesCalc_end_le (mult : Nat) :
    ∀ (l : List ((Bytes × Bytes) × Nat)) (rs rd i : Nat), i < l.length →
      ((entriesCalc mult l rs rd).getD i entDflt).dataEnd ≤
        payloadEnd (l.map fun p => (p.1.2, p.2)) rd := by
  intro l
  induction l with
  | nil => intro rs rd i hi; exact absurd hi (by simp)
  | cons p rest ih =>
    intro rs rd i hi
    obtain ⟨⟨nm, d⟩, a⟩ := p
    cases i with
    | zero =>
      show alignUp rd a + d.length ≤ payloadEnd _ (alignUp rd a + d.length)
      exact payloadEnd_le _ _
    | succ j =>
      have hj : j < rest.length := by simpa using hi
      exact ih _ _ j hj

theorem entriesCalc_hash (mult : Nat) :
    ∀ (l : List ((Bytes × Bytes) × Nat)) (rs rd i : Nat), i < l.length →
      ((entriesCalc mult l rs rd).getD i entDflt).nameHash =
        hashName mult (l.getD i pDflt).1.1 := by
  intro l
  induction l with
  | nil => intro rs rd i hi; exact absurd hi (by simp)
  | cons p rest ih =>
    intro rs rd i hi
    obtain ⟨⟨nm, d⟩, a⟩ := p
    cases i with
    | zero => rfl
    | succ j =>
      have hj : j < rest.length := by simpa using hi
      exact ih _ _ j hj

theorem entriesCalc_relField (mult : Nat) :
    ∀ (l : List ((Bytes × Bytes) × Nat)) (rs rd i : Nat), i < l.length →
      ((entriesCalc mult l rs rd).getD i entDflt).relNameOptOffset =
        2 ^ 24 ||| (nameOffsets l rs).getD i 0 / 4 := by
  intro l
  induction l with
  | nil => intro rs rd i hi; exact absurd hi (by simp)
  | cons p rest ih =>
    intro rs rd i hi
    obtain ⟨⟨nm, d⟩, a⟩ := p
    cases i with
    | zero => rfl
    | succ j =>
      have hj : j < rest.length := by simpa using hi
      exact ih _ _ j hj

theorem entriesCalc_shift (mult D : Nat) :
    ∀ (l : List ((Bytes × Bytes) × Nat)) (rs rd : Nat), (∀ p ∈ l, p.2 ∣ D) →
      entriesCalc mult l rs (D + rd) =
        (entriesCalc mult l rs rd).map fun E =>
          ⟨E.nameHash, E.relNameOptOffset, D + E.dataBegin, D + E.dataEnd⟩ := by
  intro l
  induction l with
  | nil => intro rs rd _; rfl
  | cons p rest ih =>
    intro rs rd hdvd
    obtain ⟨⟨nm, d⟩, a⟩ := p
    have ha : a ∣ D := hdvd ((nm, d), a) (by simp)
    simp only [entriesCalc, alignUp_add_multiple D rd a ha, List.map_cons]
    have h2 : D + alignUp rd a + d.length = D + (alignUp rd a + d.length) := by omega
    rw [h2, ih _ _ fun q hq => hdvd q (List.mem_cons_of_mem _ hq)]

theorem nameOffsets_ge : ∀ (l : List ((Bytes × Bytes) × Nat)) (rs i : Nat), i < l.length →
    rs ≤ (nameOffsets l rs).getD i 0 := by
  intro l
  induction l with
  | nil => intro rs i hi; exact absurd hi (by simp)
  | cons p rest ih =>
    intro rs i hi
    cases i with
    | zero => exact Nat.le_refl rs
    | succ j =>
      have hj : j < rest.length := by simpa using hi
      have h1 := ih (rs + alignUp (p.1.1.length + 1) 4) j hj
      show rs ≤ (nameOffsets rest _).getD j 0
      omega

theorem nameOffsets_dvd (l : List ((Bytes × Bytes) × Nat)) :
    ∀ (rs i : Nat), i < l.length → 4 ∣ rs → 4 ∣ (nameOffsets l rs).getD i 0 := by
  induction l with
  | nil => intro rs i hi; exact absurd hi (by simp)
  | cons p rest ih =>
    intro rs i hi hrs
    cases i with
    | zero => exact hrs
    | succ j =>
      have hj : j < rest.length := by simpa using hi
      refine ih _ j hj (Nat.dvd_add hrs ?_)
      exact alignUp_dvd _ 4 (by norm_num)

theorem nameOffsets_le (l : List ((Bytes × Bytes) × Nat)) :
    ∀ (rs i : Nat), i < l.length →
      (nameOffsets l rs).getD i 0 ≤
        rs + (l.map fun p => (nameBlock p.1.1).length).sum := by
  induction l with
  | nil => intro rs i hi; exact absurd hi (by simp)
  | cons p rest ih =>
    intro rs i hi
    cases i with
    | zero => exact Nat.le_add_right rs _
    | succ j =>
      have hj : j < rest.length := by simpa using hi
      have h1 := ih (rs + alignUp (p.1.1.length + 1) 4) j hj
      show (nameOffsets rest _).getD j 0 ≤ _
      simp only [List.map_cons, List.sum_cons]
      rw [nameBlock_length]
      omega

/-! ## C1: extraction of the written regions -/

theorem entries_flat_drop (e : REndian) :
    ∀ (ents : List FatEntry) (i : Nat), i < ents.length →
      ∃ rest, ((ents.map (fatEntryBytes e)).flatten).drop (16 * i) =
        fatEntryBytes e (ents.getD i entDflt) ++ rest := by
  intro ents
  induction ents with
  | nil => intro i hi; exact absurd hi (by simp)
  | cons ent rest' ih =>
    intro i hi
    cases i with
    | zero =>
      refine ⟨(rest'.map (fatEntryBytes e)).flatten, ?_⟩
      simp
    | succ j =>
      have hj : j < rest'.length := by simpa using hi
      obtain ⟨r, hr⟩ := ih j hj
      refine ⟨r, ?_⟩
      have hsplit : 16 * (j + 1) = 16 + 16 * j := by ring
      rw [hsplit, ← List.drop_drop]
      simp only [List.map_cons, List.flatten_cons]
      rw [List.drop_left' (fatEntryBytes_length e ent), hr]
      rfl

theorem payload_extract (mult : Nat) :
    ∀ (l : List ((Bytes × Bytes) × Nat)) (rs rd i : Nat), i < l.length →
      ∃ rest, (payloadBuild (l.map fun p => (p.1.2, p.2)) rd).drop
          (((entriesCalc mult l rs rd).getD i entDflt).dataBegin - rd) =
        (l.getD i pDflt).1.2 ++ rest := by
  intro l
  induction l with
  | nil => intro rs rd i hi; exact absurd hi (by simp)
  | cons p rest' ih =>
    intro rs rd i hi
    obtain ⟨⟨nm, d⟩, a⟩ := p
    cases i with
    | zero =>
      refine ⟨payloadBuild (rest'.map fun q : (Bytes × Bytes) × Nat => (q.1.2, q.2))
        (alignUp rd a + d.length), ?_⟩
      show (List.replicate (alignUp rd a - rd) 0 ++ d ++
          payloadBuild (rest'.map fun q : (Bytes × Bytes) × Nat => (q.1.2, q.2))
            (alignUp rd a + d.length)).drop
          (alignUp rd a - rd) = _
      rw [List.append_assoc, List.drop_left' (List.length_replicate _ _)]
      simp
    | succ j =>
      have hj : j < rest'.length := by simpa using hi
      obtain ⟨r, hr⟩ :=
        ih (rs + alignUp (nm.length + 1) 4) (alignUp rd a + d.length) j hj
      refine ⟨r, ?_⟩
      have hge := entriesCalc_begin_ge mult rest'
        (rs + alignUp (nm.length + 1) 4) (alignUp rd a + d.length) j hj
      have hup := alignUp_le rd a
      show (List.replicate (alignUp rd a - rd) 0 ++ d ++
          payloadBuild (rest'.map fun q : (Bytes × Bytes) × Nat => (q.1.2, q.2))
            (alignUp rd a + d.length)).drop
          (((entriesCalc mult rest' (rs + alignUp (nm.length + 1) 4)
              (alignUp rd a + d.length)).getD j entDflt).dataBegin - rd) = _
      set B := ((entriesCalc mult rest' (rs + alignUp (nm.length + 1) 4)
        (alignUp rd a + d.length)).getD j entDflt).dataBegin with hB
      have hsplit : B - rd =
          (alignUp rd a - rd) + (d.length + (B - (alignUp rd a + d.length))) := by omega
      rw [List.append_assoc, hsplit, ← List.drop_drop,
        List.drop_left' (List.length_replicate _ _), ← List.drop_drop,
        List.drop_left d _, hr]
      simp [List.getD_cons_succ]

theorem names_extract :
    ∀ (l : List ((Bytes × Bytes) × Nat)) (rs i : Nat), i < l.length →
      ∃ rest, ((l.map fun p => nameBlock p.1.1).flatten).drop
          ((nameOffsets l rs).getD i 0 - rs) =
        nameBlock (l.getD i pDflt).1.1 ++ rest := by
  intro l
  induction l with
  | nil => intro rs i hi; exact absurd hi (by simp)
  | cons p rest' ih =>
    intro rs i hi
    cases i with
    | zero =>
      refine ⟨(rest'.map fun p => nameBlock p.1.1).flatten, ?_⟩
      simp [nameOffsets]
    | succ j =>
      have hj : j < rest'.length := by simpa using hi
      obtain ⟨r, hr⟩ := ih (rs + alignUp (p.1.1.length + 1) 4) j hj
      refine ⟨r, ?_⟩
      have hge := nameOffsets_ge rest' (rs + alignUp (p.1.1.length + 1) 4) j hj
      show ((nameBlock p.1.1 :: rest'.map fun p => nameBlock p.1.1).flatten).drop
        ((nameOffsets rest' (rs + alignUp (p.1.1.length + 1) 4)).getD j 0 - rs) = _
      set B := (nameOffsets rest' (rs + alignUp (p.1.1.length + 1) 4)).getD j 0 with hB
      have hsplit : B - rs =
          (nameBlock p.1.1).length + (B - (rs + alignUp (p.1.1.length + 1) 4)) := by
        rw [nameBlock_length]
        omega
      rw [List.flatten_cons, hsplit, ← List.drop_drop, List.drop_left _ _, hr]
      simp [List.getD_cons_succ]

theorem findNull_name :
    ∀ (nm : Bytes), (∀ c ∈ nm, c ≠ 0) → ∀ rest : Bytes,
      findNull (nm ++ 0 :: rest) = some nm.length := by
  intro nm
  induction nm with
  | nil => intro _ rest; simp [findNull]
  | cons c cs ih =>
    intro h rest
    have hc : ¬ c = 0 := h c (by simp)
    have htail := ih (fun x hx => h x (by simp [hx])) rest
    unfold findNull at htail ⊢
    rw [List.cons_append, List.findIdx?_cons]
    simp [hc, htail]

theorem readFatEntry_drop (e : REndian) (b : Bytes) (pos : Nat) :
    readFatEntry e (b.drop pos) 0 = readFatEntry e b pos := by
  unfold readFatEntry
  rw [readU32_drop, readU32_drop, readU32_drop, readU32_drop]
  simp only [List.length_drop, Nat.zero_add, Nat.add_zero]
  exact if_congr (by omega) rfl rfl

theorem readU32_here (e : REndian) (pre : Bytes) (v : Nat) (rest : Bytes)
    (h : v < 2 ^ 32) :
    readU32 e (pre ++ (w32 e v ++ rest)) pre.length = some v := by
  have h1 : (pre ++ (w32 e v ++ rest)).drop pre.length = w32 e v ++ rest :=
    List.drop_left _ _
  have h2 := readU32_drop e (pre ++ (w32 e v ++ rest)) pre.length 0
  rw [h1, Nat.add_zero] at h2
  rw [← h2]
  exact readU32_w32_self e v rest h

theorem readU16_here (e : REndian) (pre : Bytes) (v : Nat) (rest : Bytes)
    (h : v < 2 ^ 16) :
    readU16 e (pre ++ (w16 e v ++ rest)) pre.length = some v := by
  have h1 : (pre ++ (w16 e v ++ rest)).drop pre.length = w16 e v ++ rest :=
    List.drop_left _ _
  have h2 := readU16_drop e (pre ++ (w16 e v ++ rest)) pre.length 0
  rw [h1, Nat.add_zero] at h2
  rw [← h2]
  exact readU16_w16_self e v rest h

theorem readBom_here (e : REndian) (pre rest : Bytes) :
    readBom (pre ++ (bomBytes e ++ rest)) pre.length = some e := by
  have h1 : (pre ++ (bomBytes e ++ rest)).drop pre.length = bomBytes e ++ rest :=
    List.drop_left _ _
  have h2 := readBom_drop (pre ++ (bomBytes e ++ rest)) pre.length 0
  rw [h1, Nat.add_zero] at h2
  rw [← h2]
  exact readBom_bom_self e rest

theorem readFatEntry_self (e : REndian) (ent : FatEntry) (rest : Bytes)
    (h1 : ent.nameHash < 2 ^ 32) (h2 : ent.relNameOptOffset < 2 ^ 32)
    (h3 : ent.dataBegin < 2 ^ 32) (h4 : ent.dataEnd < 2 ^ 32) :
    readFatEntry e (fatEntryBytes e ent ++ rest) 0 = some ent := by
  obtain ⟨a, r, db, de⟩ := ent
  have e1 : readU32 e (w32 e a ++ (w32 e r ++ (w32 e db ++ (w32 e de ++ rest)))) 0 =
      some a := by
    simpa using readU32_here e [] a (w32 e r ++ (w32 e db ++ (w32 e de ++ rest))) h1
  have e2 : readU32 e (w32 e a ++ (w32 e r ++ (w32 e db ++ (w32 e de ++ rest)))) 4 =
      some r := by
    simpa using readU32_here e (w32 e a) r (w32 e db ++ (w32 e de ++ rest)) h2
  have e3 : readU32 e (w32 e a ++ (w32 e r ++ (w32 e db ++ (w32 e de ++ rest)))) 8 =
      some db := by
    simpa [List.append_assoc] using
      readU32_here e (w32 e a ++ w32 e r) db (w32 e de ++ rest) h3
  have e4 : readU32 e (w32 e a ++ (w32 e r ++ (w32 e db ++ (w32 e de ++ rest)))) 12 =
      some de := by
    simpa [List.append_assoc] using
      readU32_here e (w32 e a ++ w32 e r ++ w32 e db) de rest h4
  unfold readFatEntry fatEntryBytes
  simp only [List.append_assoc]
  rw [if_pos (by simp; omega)]
  simp only [Nat.zero_add]
  rw [e1, e2, e3, e4]

/-! ## C1: assembly helpers -/

theorem minAlign_dvd_getAlignmentForFile (fac : List Bytes) (m : List (Bytes × Nat))
    (ma : Nat) (legacy : Bool) (e : REndian) (nm d : Bytes) :
    ma ∣ getAlignmentForFile fac m ma legacy e nm d := by
  have step : ∀ x y : Nat, ma ∣ x → ma ∣ Nat.lcm x y := fun x y h =>
    Nat.dvd_trans h (Nat.dvd_lcm_left x y)
  have base : ma ∣ (match idxGet m (extOf nm) with
      | some r => Nat.lcm ma r
      | none => ma) := by
    rcases idxGet m (extOf nm) with _ | r
    · exact Nat.dvd_refl ma
    · exact step ma r (Nat.dvd_refl ma)
  have hA2 : ma ∣ (if legacy && isFileSarc d then
      Nat.lcm (match idxGet m (extOf nm) with
        | some r => Nat.lcm ma r
        | none => ma) 0x2000
      else (match idxGet m (extOf nm) with
        | some r => Nat.lcm ma r
        | none => ma)) := by
    split
    · exact step _ _ base
    · exact base
  simp only [getAlignmentForFile]
  split
  · cases e
    · exact step _ _ (step _ _ hA2)
    · exact step _ _ hA2
  · exact hA2

theorem sarcFilesAux_eq (s : SarcP) (F : List FileP)
    (hall : ∀ j, j < F.length → sarcFileAtIdx s j = some (F.getD j ⟨none, []⟩)) :
    ∀ (k i : Nat), k + i = F.length → sarcFilesAux s k i = F.drop i := by
  intro k
  induction k with
  | zero =>
    intro i hi
    rw [sarcFilesAux]
    rw [List.drop_eq_nil_of_le (by omega)]
  | succ m ih =>
    intro i hi
    have hilt : i < F.length := by omega
    rw [sarcFilesAux, hall i hilt]
    rw [ih (i + 1) (by omega)]
    rw [List.drop_eq_getElem_cons hilt, List.getD_eq_getElem F _ hilt]

theorem readU16_at (e : REndian) (b X : Bytes) (pos v : Nat)
    (hd : b.drop pos = w16 e v ++ X) (h : v < 2 ^ 16) :
    readU16 e b pos = some v := by
  have h2 := readU16_drop e b pos 0
  rw [Nat.add_zero] at h2
  rw [← h2, hd]
  exact readU16_w16_self e v X h

theorem readU32_at (e : REndian) (b X : Bytes) (pos v : Nat)
    (hd : b.drop pos = w32 e v ++ X) (h : v < 2 ^ 32) :
    readU32 e b pos = some v := by
  have h2 := readU32_drop e b pos 0
  rw [Nat.add_zero] at h2
  rw [← h2, hd]
  exact readU32_w32_self e v X h

theorem readBom_at (e : REndian) (b X : Bytes) (pos : Nat)
    (hd : b.drop pos = bomBytes e ++ X) :
    readBom b pos = some e := by
  have h2 := readBom_drop b pos 0
  rw [Nat.add_zero] at h2
  rw [← h2, hd]
  exact readBom_bom_self e X

theorem readFatEntry_at (e : REndian) (b X : Bytes) (pos : Nat) (ent : FatEntry)
    (hd : b.drop pos = fatEntryBytes e ent ++ X)
    (h1 : ent.nameHash < 2 ^ 32) (h2 : ent.relNameOptOffset < 2 ^ 32)
    (h3 : ent.dataBegin < 2 ^ 32) (h4 : ent.dataEnd < 2 ^ 32) :
    readFatEntry e b pos = some ent := by
  rw [← readFatEntry_drop, hd]
  exact readFatEntry_self e ent X h1 h2 h3 h4

theorem drop_append_inner (b pre rest : Bytes) (pos k : Nat)
    (h : b.drop pos = pre ++ rest) (hk : k ≤ pre.length) :
    b.drop (pos + k) = pre.drop k ++ rest := by
  rw [← List.drop_drop, h]
  exact List.drop_append_of_le_length hk

theorem payloadBuild_shift (D : Nat) : ∀ (l : List (Bytes × Nat)) (cur : Nat),
    (∀ p ∈ l, p.2 ∣ D) → payloadBuild l (D + cur) = payloadBuild l cur := by
  intro l
  induction l with
  | nil => intro cur _; rfl
  | cons p rest ih =>
    intro cur hdvd
    obtain ⟨d, a⟩ := p
    have ha : a ∣ D := hdvd (d, a) (by simp)
    show List.replicate (alignUp (D + cur) a - (D + cur)) 0 ++ d ++
        payloadBuild rest (alignUp (D + cur) a + d.length) = _
    rw [alignUp_add_multiple D cur a ha]
    have h2 : D + alignUp cur a + d.length = D + (alignUp cur a + d.length) := by omega
    have h3 : D + alignUp cur a - (D + cur) = alignUp cur a - cur := by omega
    rw [h2, h3, ih _ fun q hq => hdvd q (List.mem_cons_of_mem _ hq)]
    rfl

theorem zip_map_fst {α β γ : Type} (g : α → γ) :
    ∀ (l1 : List α) (l2 : List β), l1.length ≤ l2.length →
      ((l1.zip l2).map fun p => g p.1) = l1.map g := by
  intro l1
  induction l1 with
  | nil => intro l2 _; simp
  | cons a r1 ih =>
    intro l2 hlen
    cases l2 with
    | nil => simp at hlen
    | cons c r2 =>
      simp only [List.zip_cons_cons, List.map_cons, List.cons.injEq, true_and]
      exact ih r2 (by simpa using hlen)

theorem zip_map_snd_pair :
    ∀ (l1 : List (Bytes × Bytes)) (l2 : List Nat),
      ((l1.zip l2).map fun p => (p.1.2, p.2)) = (l1.map fun f => f.2).zip l2 := by
  intro l1
  induction l1 with
  | nil => intro l2; simp
  | cons a r1 ih =>
    intro l2
    cases l2 with
    | nil => simp
    | cons c r2 =>
      simp only [List.zip_cons_cons, List.map_cons]
      rw [ih r2]

theorem and_mask_mod (x k : Nat) : x &&& (2 ^ k - 1) = x % 2 ^ k := by
  refine Nat.eq_of_testBit_eq fun i => ?_
  rw [Nat.testBit_and, Nat.testBit_two_pow_sub_one, Nat.testBit_mod_two_pow]
  cases x.testBit i <;> cases decide (i < k) <;> rfl

theorem lor_mask_two_pow24 {v : Nat} (h : v < 2 ^ 24) :
    (2 ^ 24 ||| v) &&& 0xFFFFFF = v := by
  have hm : (0xFFFFFF : Nat) = 2 ^ 24 - 1 := by norm_num
  rw [hm, and_mask_mod, lor_two_pow_eq_add h]
  omega

theorem entriesCalc_begin_zero (mult : Nat) (l : List ((Bytes × Bytes) × Nat)) (rs : Nat)
    (h : l ≠ []) :
    ((entriesCalc mult l rs 0).getD 0 entDflt).dataBegin = 0 := by
  cases l with
  | nil => exact absurd rfl h
  | cons p rest =>
    obtain ⟨⟨nm, d⟩, a⟩ := p
    show alignUp 0 a = 0
    exact alignUp_zero a

theorem filterMap_named (l : List (Bytes × Bytes)) :
    ((l.map fun f => (⟨some f.1, f.2⟩ : FileP)).filterMap fun f =>
        f.name.map fun nm => (nm, f.data)) = l := by
  induction l with
  | nil => rfl
  | cons p rest ih =>
    simp only [List.map_cons, List.filterMap_cons]
    simp [ih]

theorem sarcWriteBytes_congr (aglenv : List (Bytes × Nat)) (fac : List Bytes)
    (st1 st2 : SarcWriterS)
    (he : st1.endian = st2.endian) (hl : st1.legacy = st2.legacy)
    (hm : st1.hashMultiplier = st2.hashMultiplier)
    (hma : st1.minAlignment = st2.minAlignment)
    (hmap : st1.alignmentMap = st2.alignmentMap)
    (hf : List.insertionSort hashLe st1.files = List.insertionSort hashLe st2.files) :
    sarcWriteBytes aglenv fac st1 = sarcWriteBytes aglenv fac st2 := by
  unfold sarcWriteBytes sarcWriteLayout
  rw [he, hl, hm, hma, hmap, hf]

theorem sarcWriteLayout_congr (aglenv : List (Bytes × Nat)) (fac : List Bytes)
    (st1 st2 : SarcWriterS)
    (he : st1.endian = st2.endian) (hl : st1.legacy = st2.legacy)
    (hm : st1.hashMultiplier = st2.hashMultiplier)
    (hma : st1.minAlignment = st2.minAlignment)
    (hmap : st1.alignmentMap = st2.alignmentMap)
    (hf : List.insertionSort hashLe st1.files = List.insertionSort hashLe st2.files) :
    sarcWriteLayout aglenv fac st1 = sarcWriteLayout aglenv fac st2 := by
  unfold sarcWriteLayout
  rw [he, hl, hm, hma, hmap, hf]

theorem estSize_congr (st1 st2 : SarcWriterS) (h : List.Perm st1.files st2.files) :
    estSize st1 = estSize st2 := by
  unfold estSize
  rw [(h.map fun p => 0x10 + alignUp (p.1.length + 1) 4 + p.2.length).sum_eq]

/-- The writer's output split into fully right-nested append regions. -/
theorem sarcWrite_decomp (aglenv : List (Bytes × Nat)) (fac : List Bytes)
    (st : SarcWriterS) :
    sarcWriteBytes aglenv fac st =
      [83, 65, 82, 67] ++ (w16 st.endian 0x14 ++ (bomBytes st.endian ++
        (w32 st.endian (sarcWriteLayout aglenv fac st).fileSize ++
        (w32 st.endian (sarcWriteLayout aglenv fac st).dob ++
        (w16 st.endian 0x100 ++ (w16 st.endian 0 ++
        ([83, 70, 65, 84] ++ (w16 st.endian 0xC ++
        (w16 st.endian (sarcWriteLayout aglenv fac st).sorted.length ++
        (w32 st.endian st.hashMultiplier ++
        (((sarcWriteLayout aglenv fac st).entries.map (fatEntryBytes st.endian)).flatten ++
        ([83, 70, 78, 84] ++ (w16 st.endian 8 ++ (w16 st.endian 0 ++
        (((sarcWriteLayout aglenv fac st).sorted.map fun f => nameBlock f.1).flatten ++
        (List.replicate ((sarcWriteLayout aglenv fac st).dob -
            (sarcWriteLayout aglenv fac st).namesEnd) 0 ++
          payloadBuild (((sarcWriteLayout aglenv fac st).sorted.map fun f => f.2).zip
            (sarcWriteLayout aglenv fac st).aligns)
            (sarcWriteLayout aglenv fac st).dob)))))))))))))))) := by
  simp only [sarcWriteBytes]
  simp only [List.append_assoc]

/-- All the header fields `Sarc::new` reads, recovered from the region
decomposition of a written buffer. -/
theorem sarc_header_reads (e : REndian) (b ENTB R : Bytes) (FS DOB n mult : Nat)
    (hb : b = [83, 65, 82, 67] ++ (w16 e 0x14 ++ (bomBytes e ++ (w32 e FS ++
      (w32 e DOB ++ (w16 e 0x100 ++ (w16 e 0 ++ ([83, 70, 65, 84] ++ (w16 e 0xC ++
      (w16 e n ++ (w32 e mult ++ (ENTB ++ ([83, 70, 78, 84] ++ (w16 e 8 ++
      (w16 e 0 ++ R)))))))))))))))
    (hENTB : ENTB.length = 16 * n)
    (hFS : FS < 2 ^ 32) (hDOB : DOB < 2 ^ 32) (hn : n < 2 ^ 16) (hmult : mult < 2 ^ 32) :
    b.take 4 = [83, 65, 82, 67] ∧
      readU16 e b 4 = some 0x14 ∧
      readBom b 6 = some e ∧
      readU32 e b 8 = some FS ∧
      readU32 e b 12 = some DOB ∧
      readU16 e b 16 = some 0x100 ∧
      (b.drop 20).take 4 = [83, 70, 65, 84] ∧
      readU16 e b 24 = some 0xC ∧
      readU16 e b 26 = some n ∧
      readU32 e b 28 = some mult ∧
      b.drop 32 = ENTB ++ ([83, 70, 78, 84] ++ (w16 e 8 ++ (w16 e 0 ++ R))) ∧
      (b.drop (32 + 16 * n)).take 4 = [83, 70, 78, 84] ∧
      readU16 e b (32 + 16 * n + 4) = some 8 ∧
      readU16 e b (32 + 16 * n + 6) = some 0 ∧
      b.drop (32 + 16 * n + 8) = R := by
  have d0 : b.drop 0 = [83, 65, 82, 67] ++ (w16 e 0x14 ++ (bomBytes e ++ (w32 e FS ++
      (w32 e DOB ++ (w16 e 0x100 ++ (w16 e 0 ++ ([83, 70, 65, 84] ++ (w16 e 0xC ++
      (w16 e n ++ (w32 e mult ++ (ENTB ++ ([83, 70, 78, 84] ++ (w16 e 8 ++
      (w16 e 0 ++ R)))))))))))))) := by
    rw [List.drop_zero]; exact hb
  have d4 := drop_from b [83, 65, 82, 67] _ 0 4 d0 rfl
  have d6 := drop_from b (w16 e 0x14) _ (0 + 4) 2 d4 (w16_length e 0x14)
  have d8 := drop_from b (bomBytes e) _ (0 + 4 + 2) 2 d6 (bomBytes_length e)
  have d12 := drop_from b (w32 e FS) _ (0 + 4 + 2 + 2) 4 d8 (w32_length e FS)
  have d16 := drop_from b (w32 e DOB) _ (0 + 4 + 2 + 2 + 4) 4 d12 (w32_length e DOB)
  have d18 := drop_from b (w16 e 0x100) _ (0 + 4 + 2 + 2 + 4 + 4) 2 d16 (w16_length e 0x100)
  have d20 := drop_from b (w16 e 0) _ (0 + 4 + 2 + 2 + 4 + 4 + 2) 2 d18 (w16_length e 0)
  have d24 := drop_from b [83, 70, 65, 84] _ (0 + 4 + 2 + 2 + 4 + 4 + 2 + 2) 4 d20 rfl
  have d26 := drop_from b (w16 e 0xC) _ (0 + 4 + 2 + 2 + 4 + 4 + 2 + 2 + 4) 2 d24
    (w16_length e 0xC)
  have d28 := drop_from b (w16 e n) _ (0 + 4 + 2 + 2 + 4 + 4 + 2 + 2 + 4 + 2) 2 d26
    (w16_length e n)
  have d32 := drop_from b (w32 e mult) _ (0 + 4 + 2 + 2 + 4 + 4 + 2 + 2 + 4 + 2 + 2) 4 d28
    (w32_length e mult)
  norm_num at d4 d6 d8 d12 d16 d18 d20 d24 d26 d28 d32
  have dfnt := drop_from b ENTB _ 32 (16 * n) d32 hENTB
  have dfnt4 := drop_from b [83, 70, 78, 84] _ (32 + 16 * n) 4 dfnt rfl
  have dfnt6 := drop_from b (w16 e 8) _ (32 + 16 * n + 4) 2 dfnt4 (w16_length e 8)
  have dR := drop_from b (w16 e 0) _ (32 + 16 * n + 4 + 2) 2 dfnt6 (w16_length e 0)
  have h42 : 32 + 16 * n + 4 + 2 = 32 + 16 * n + 6 := by omega
  have h62 : 32 + 16 * n + 4 + 2 + 2 = 32 + 16 * n + 8 := by omega
  rw [h42] at dfnt6
  rw [h62] at dR
  refine ⟨by rw [hb]; exact List.take_left' rfl,
    readU16_at e b _ 4 0x14 d4 (by norm_num),
    readBom_at e b _ 6 d6,
    readU32_at e b _ 8 FS d8 hFS,
    readU32_at e b _ 12 DOB d12 hDOB,
    readU16_at e b _ 16 0x100 d16 (by norm_num),
    by rw [d20]; rfl,
    readU16_at e b _ 24 0xC d24 (by norm_num),
    readU16_at e b _ 26 n d26 hn,
    readU32_at e b _ 28 mult d28 hmult,
    d32,
    by rw [dfnt]; rfl,
    readU16_at e b _ (32 + 16 * n + 4) 8 dfnt4 (by norm_num),
    readU16_at e b _ (32 + 16 * n + 6) 0 dfnt6 (by norm_num),
    dR⟩

/-- Evaluation of `Sarc::new` given the individual field reads. -/
theorem sarcNew_eval (e : REndian) (b : Bytes) (FS DOB n mult : Nat)
    (h40 : 0x40 ≤ b.length)
    (ht4 : b.take 4 = [83, 65, 82, 67])
    (h4 : readU16 e b 4 = some 0x14)
    (h6 : readBom b 6 = some e)
    (h8 : readU32 e b 8 = some FS)
    (h12 : readU32 e b 12 = some DOB)
    (h16 : readU16 e b 16 = some 0x100)
    (ht20 : (b.drop 20).take 4 = [83, 70, 65, 84])
    (h24 : readU16 e b 24 = some 0xC)
    (h26 : readU16 e b 26 = some n)
    (h28 : readU32 e b 28 = some mult)
    (hsh : n >>> 14 = 0)
    (hfnt : 32 + 16 * n + 8 ≤ b.length)
    (htf : (b.drop (32 + 16 * n)).take 4 = [83, 70, 78, 84])
    (hf4 : readU16 e b (32 + 16 * n + 4) = some 8)
    (hf6 : readU16 e b (32 + 16 * n + 6) = some 0)
    (hdo : ¬ DOB < 32 + 16 * n + 8) :
    sarcNew b = some ⟨n, 32, mult, DOB, 32 + 16 * n + 8, e, b⟩ := by
  simp only [sarcNew, ht4, h6, h4, h8, h12, h16, ht20, h24, h26, h28, hsh, htf, hf4, hf6]
  rw [if_neg (by omega : ¬ b.length < 0x40)]
  norm_num
  exact ⟨hfnt, fun h => absurd h hdo⟩

/-- Evaluation of one `FileIterator::next` step from the name-table and
payload facts of the archive. -/
theorem sarcFileAtIdx_eval (s : SarcP) (j noff : Nat) (ent : FatEntry)
    (nm rest1 dat : Bytes)
    (hent : readFatEntry s.endian s.data (s.entriesOffset + 16 * j) = some ent)
    (hne0 : ent.relNameOptOffset ≠ 0)
    (hnoff : s.namesOffset + (ent.relNameOptOffset &&& 0xFFFFFF) * 4 = noff)
    (hnoffle : noff ≤ s.data.length)
    (hdropn : s.data.drop noff = nm ++ (0 :: rest1))
    (hnmz : ∀ c ∈ nm, c ≠ 0)
    (hutf : validUtf8 nm = true)
    (hlo : s.dataOffset + ent.dataBegin < 2 ^ 32)
    (hhi : s.dataOffset + ent.dataEnd < 2 ^ 32)
    (hbe : ent.dataBegin ≤ ent.dataEnd)
    (hhile : s.dataOffset + ent.dataEnd ≤ s.data.length)
    (hdropd : (s.data.drop (s.dataOffset + ent.dataBegin)).take
        (ent.dataEnd - ent.dataBegin) = dat) :
    sarcFileAtIdx s j = some ⟨some nm, dat⟩ := by
  have hle2 : s.dataOffset + ent.dataBegin ≤ s.dataOffset + ent.dataEnd := by omega
  unfold sarcFileAtIdx
  simp only [hent, if_pos hne0, hnoff, if_pos hnoffle, hdropn,
    findNull_name nm hnmz rest1, List.take_left, if_pos hutf]
  simp only [Nat.mod_eq_of_lt hlo, Nat.mod_eq_of_lt hhi, sliceGet,
    if_pos (And.intro hle2 hhile), Nat.add_sub_add_left, hdropd]

set_option maxRecDepth 8192 in
/-- The round-trip core, shared by the C1 theorem and its counterexample:
for every buffer `SarcWriter::write` lays out from a default-configured
writer, `Sarc::new` recovers exactly the written reader state,
`SarcWriter::from_sarc` rebuilds the default writer holding the same
files in hash-sorted order, and re-running the layout on that writer
reproduces the buffer byte for byte. -/
theorem sarc_roundtrip_core (aglenv : List (Bytes × Nat)) (fac : List Bytes)
    (st : SarcWriterS)
    (hleg : st.legacy = false) (hmult : st.hashMultiplier = 0x65)
    (hmin : st.minAlignment = 4) (hmap2 : st.alignmentMap = [])
    (hne : st.files ≠ [])
    (hnm : ∀ p ∈ st.files, validUtf8 p.1 = true ∧ ∀ c ∈ p.1, c ≠ 0)
    (hnd : (st.files.map Prod.fst).Nodup)
    (hcount : st.files.length < 2 ^ 14)
    (hfs : (sarcWriteLayout aglenv fac st).fileSize < 2 ^ 32)
    (hlen : 0x40 ≤ (sarcWriteLayout aglenv fac st).fileSize)
    (hnend : (sarcWriteLayout aglenv fac st).namesEnd < 2 ^ 26)
    (hpos : ∀ a ∈ (sarcWriteLayout aglenv fac st).aligns, 0 < a) :
    sarcNew (sarcWriteBytes aglenv fac st) =
        some ⟨(sarcWriteLayout aglenv fac st).sorted.length, 32, st.hashMultiplier,
          (sarcWriteLayout aglenv fac st).dob,
          32 + 16 * (sarcWriteLayout aglenv fac st).sorted.length + 8, st.endian,
          sarcWriteBytes aglenv fac st⟩ ∧
      sarcFromSarc ⟨(sarcWriteLayout aglenv fac st).sorted.length, 32, st.hashMultiplier,
          (sarcWriteLayout aglenv fac st).dob,
          32 + 16 * (sarcWriteLayout aglenv fac st).sorted.length + 8, st.endian,
          sarcWriteBytes aglenv fac st⟩ =
        some ⟨st.endian, false, 0x65, 4, [], (sarcWriteLayout aglenv fac st).sorted⟩ ∧
      sarcWriteBytes aglenv fac
          ⟨st.endian, false, 0x65, 4, [], (sarcWriteLayout aglenv fac st).sorted⟩ =
        sarcWriteBytes aglenv fac st := by
  have hsorted0 : (sarcWriteLayout aglenv fac st).sorted =
      List.insertionSort hashLe st.files := rfl
  have haligns0 : (sarcWriteLayout aglenv fac st).aligns =
      (sarcWriteLayout aglenv fac st).sorted.map fun f =>
        getAlignmentForFile fac (addDefaultAlignments aglenv st.endian st.alignmentMap)
          st.minAlignment st.legacy st.endian f.1 f.2 := rfl
  have hentries0 : (sarcWriteLayout aglenv fac st).entries =
      entriesCalc st.hashMultiplier
        ((sarcWriteLayout aglenv fac st).sorted.zip (sarcWriteLayout aglenv fac st).aligns)
        0 0 := rfl
  have hNO0 : (sarcWriteLayout aglenv fac st).namesOff =
      0x28 + 16 * (sarcWriteLayout aglenv fac st).sorted.length := rfl
  have hNE0 : (sarcWriteLayout aglenv fac st).namesEnd =
      (sarcWriteLayout aglenv fac st).namesOff +
        ((sarcWriteLayout aglenv fac st).sorted.map fun f => (nameBlock f.1).length).sum :=
    rfl
  have hRA0 : (sarcWriteLayout aglenv fac st).reqAlign =
      (sarcWriteLayout aglenv fac st).aligns.foldl Nat.lcm 1 := rfl
  have hDOB0 : (sarcWriteLayout aglenv fac st).dob =
      alignUp (sarcWriteLayout aglenv fac st).namesEnd
        (sarcWriteLayout aglenv fac st).reqAlign := rfl
  have hFS0 : (sarcWriteLayout aglenv fac st).fileSize =
      payloadEnd (((sarcWriteLayout aglenv fac st).sorted.map fun f => f.2).zip
        (sarcWriteLayout aglenv fac st).aligns) (sarcWriteLayout aglenv fac st).dob := rfl
  have hslen0 : (sarcWriteLayout aglenv fac st).sorted.length = st.files.length := by
    rw [hsorted0]
    exact (List.perm_insertionSort hashLe st.files).length_eq
  set L := sarcWriteLayout aglenv fac st with hL
  set n := L.sorted.length with hn
  have hn14 : n < 2 ^ 14 := by rw [hslen0]; exact hcount
  have hn0 : 0 < n := by
    rw [hslen0]
    rcases hq : st.files with _ | ⟨p, rest⟩
    · exact absurd hq hne
    · simp
  have hALlen : L.aligns.length = n := by
    rw [haligns0, List.length_map]
  have hZlen : (L.sorted.zip L.aligns).length = n := by
    rw [List.length_zip, hALlen, ← hn, Nat.min_self]
  have hENlen : L.entries.length = n := by
    rw [hentries0, entriesCalc_length, hZlen]
  have h4dvd : ∀ a ∈ L.aligns, 4 ∣ a := by
    intro a ha
    rw [haligns0] at ha
    obtain ⟨f, _, rfl⟩ := List.mem_map.mp ha
    rw [← hmin]
    exact minAlign_dvd_getAlignmentForFile fac
      (addDefaultAlignments aglenv st.endian st.alignmentMap) st.minAlignment st.legacy
      st.endian f.1 f.2
  have hRApos : 0 < L.reqAlign := by
    rw [hRA0]
    exact foldl_lcm_pos L.aligns 1 (by norm_num) hpos
  have hRAdvdDOB : L.reqAlign ∣ L.dob := by
    rw [hDOB0]
    exact alignUp_dvd _ _ hRApos
  have hmemdvd : ∀ a ∈ L.aligns, a ∣ L.dob := by
    intro a ha
    refine Nat.dvd_trans ?_ hRAdvdDOB
    rw [hRA0]
    exact mem_dvd_foldl_lcm L.aligns 1 a ha
  have h4DOB : (4 : Nat) ∣ L.dob := by
    have hA0 : 0 < L.aligns.length := by omega
    have hmem : L.aligns.getD 0 1 ∈ L.aligns := by
      rw [List.getD_eq_getElem L.aligns 1 hA0]
      exact List.getElem_mem hA0
    exact Nat.dvd_trans (h4dvd _ hmem) (hmemdvd _ hmem)
  have hNOle : L.namesOff ≤ L.namesEnd := by rw [hNE0]; exact Nat.le_add_right _ _
  have hNEle : L.namesEnd ≤ L.dob := by rw [hDOB0]; exact alignUp_le _ _
  have hDOBle : L.dob ≤ L.fileSize := by rw [hFS0]; exact payloadEnd_le _ _
  have hDOBlt : L.dob < 2 ^ 32 := by omega
  set b := sarcWriteBytes aglenv fac st with hbdef
  have hdec := sarcWrite_decomp aglenv fac st
  rw [← hL, ← hbdef, ← hn] at hdec
  have hENTBlen : ((L.entries.map (fatEntryBytes st.endian)).flatten).length = 16 * n := by
    rw [flat_entries_length, hENlen]
  have hNMBlen : ((L.sorted.map fun f => nameBlock f.1).flatten).length =
      ((L.sorted.map fun f => (nameBlock f.1).length)).sum := by
    rw [List.length_flatten, List.map_map]
    rfl
  have hblen : b.length = L.fileSize := by
    rw [hdec]
    simp only [List.length_append, List.length_cons, List.length_nil, w16_length,
      w32_length, bomBytes_length, List.length_replicate, hENTBlen, hNMBlen]
    rw [payloadBuild_length, ← hFS0]
    omega
  obtain ⟨ht4, hr4, hr6, hr8, hr12, hr16, ht20, hr24, hr26, hr28, h32, htf, hf4, hf6, hfR⟩ :=
    sarc_header_reads st.endian b _ _ L.fileSize L.dob n st.hashMultiplier hdec hENTBlen
      hfs hDOBlt (by omega) (by rw [hmult]; norm_num)
  have hnew : sarcNew b =
      some ⟨n, 32, st.hashMultiplier, L.dob, 32 + 16 * n + 8, st.endian, b⟩ :=
    sarcNew_eval st.endian b L.fileSize L.dob n st.hashMultiplier
      (by omega) ht4 hr4 hr6 hr8 hr12 hr16 ht20 hr24 hr26 hr28
      (by rw [Nat.shiftRight_eq_div_pow]; exact Nat.div_eq_of_lt (by omega))
      (by omega) htf hf4 hf6 (by omega)
  have hrsbound : ∀ j, j < n →
      (nameOffsets (L.sorted.zip L.aligns) 0).getD j 0 < 2 ^ 26 := by
    intro j hj
    have hjZ : j < (L.sorted.zip L.aligns).length := by omega
    have h1 := nameOffsets_le (L.sorted.zip L.aligns) 0 j hjZ
    have h2 : ((L.sorted.zip L.aligns).map fun p => (nameBlock p.1.1).length) =
        L.sorted.map fun f => (nameBlock f.1).length :=
      zip_map_fst (fun f => (nameBlock f.1).length) L.sorted L.aligns (by omega)
    rw [h2, Nat.zero_add] at h1
    omega
  have hzipgetD : ∀ j, j < n → (L.sorted.zip L.aligns).getD j pDflt =
      (L.sorted.getD j ([], []), L.aligns.getD j 1) := by
    intro j hj
    have hjZ : j < (L.sorted.zip L.aligns).length := by omega
    have hjS : j < L.sorted.length := by omega
    have hjA : j < L.aligns.length := by omega
    rw [List.getD_eq_getElem _ _ hjZ, List.getElem_zip,
      List.getD_eq_getElem _ _ hjS, List.getD_eq_getElem _ _ hjA]
  have hrelj : ∀ j, j < n → (L.entries.getD j entDflt).relNameOptOffset =
      2 ^ 24 ||| (nameOffsets (L.sorted.zip L.aligns) 0).getD j 0 / 4 := by
    intro j hj
    have hjZ : j < (L.sorted.zip L.aligns).length := by omega
    rw [hentries0]
    exact entriesCalc_relField st.hashMultiplier _ 0 0 j hjZ
  have hhashj : ∀ j, j < n → (L.entries.getD j entDflt).nameHash =
      hashName st.hashMultiplier ((L.sorted.getD j ([], []))).1 := by
    intro j hj
    have hjZ : j < (L.sorted.zip L.aligns).length := by omega
    rw [hentries0, entriesCalc_hash st.hashMultiplier _ 0 0 j hjZ, hzipgetD j hj]
  have hendj : ∀ j, j < n → (L.entries.getD j entDflt).dataEnd =
      (L.entries.getD j entDflt).dataBegin + ((L.sorted.getD j ([], []))).2.length := by
    intro j hj
    have hjZ : j < (L.sorted.zip L.aligns).length := by omega
    rw [hentries0, entriesCalc_end_eq st.hashMultiplier _ 0 0 j hjZ, hzipgetD j hj]
  have hrelFS : payloadEnd ((L.sorted.zip L.aligns).map fun p => (p.1.2, p.2)) 0 =
      L.fileSize - L.dob := by
    have hdvdrel : ∀ p ∈ ((L.sorted.zip L.aligns).map fun p => (p.1.2, p.2)),
        p.2 ∣ L.dob := by
      intro p hp
      obtain ⟨q, hq, rfl⟩ := List.mem_map.mp hp
      exact hmemdvd q.2 (List.of_mem_zip hq).2
    have h1 := payloadEnd_shift L.dob
      ((L.sorted.zip L.aligns).map fun p => (p.1.2, p.2)) 0 hdvdrel
    rw [Nat.add_zero] at h1
    have h3 : payloadEnd ((L.sorted.zip L.aligns).map fun p => (p.1.2, p.2)) L.dob =
        L.fileSize := by
      rw [zip_map_snd_pair, ← hFS0]
    omega
  have hbeginlt : ∀ j, j < n →
      (L.entries.getD j entDflt).dataEnd ≤ L.fileSize - L.dob := by
    intro j hj
    have hjZ : j < (L.sorted.zip L.aligns).length := by omega
    have h1 := entriesCalc_end_le st.hashMultiplier (L.sorted.zip L.aligns) 0 0 j hjZ
    rw [← hentries0, hrelFS] at h1
    exact h1
  have hentreadj : ∀ j, j < n → readFatEntry st.endian b (32 + 16 * j) =
      some (L.entries.getD j entDflt) := by
    intro j hj
    have hjE : j < L.entries.length := by omega
    have h16j : 16 * j ≤ ((L.entries.map (fatEntryBytes st.endian)).flatten).length := by
      rw [hENTBlen]; omega
    have hdj := drop_append_inner b _ _ 32 (16 * j) h32 h16j
    obtain ⟨r1, hr1⟩ := entries_flat_drop st.endian L.entries j hjE
    rw [hr1, List.append_assoc] at hdj
    have hrel := hrelj j hj
    have hrsb := hrsbound j hj
    have hrs4 : (nameOffsets (L.sorted.zip L.aligns) 0).getD j 0 / 4 < 2 ^ 24 :=
      Nat.div_lt_of_lt_mul (by omega)
    have hrellt : (L.entries.getD j entDflt).relNameOptOffset < 2 ^ 32 := by
      rw [hrel, lor_two_pow_eq_add hrs4]; omega
    have hhash : (L.entries.getD j entDflt).nameHash < 2 ^ 32 := by
      rw [hhashj j hj]; exact hashName_lt _ _
    have hendle := hbeginlt j hj
    have hend := hendj j hj
    have hbeglt : (L.entries.getD j entDflt).dataBegin < 2 ^ 32 := by omega
    have hendlt : (L.entries.getD j entDflt).dataEnd < 2 ^ 32 := by omega
    exact readFatEntry_at st.endian b _ (32 + 16 * j) _ hdj hhash hrellt hbeglt hendlt
  have hNMBeq : ((L.sorted.zip L.aligns).map fun p => nameBlock p.1.1) =
      L.sorted.map fun f => nameBlock f.1 :=
    zip_map_fst (fun f => nameBlock f.1) L.sorted L.aligns (by omega)
  have hfile : ∀ j, j < n →
      sarcFileAtIdx ⟨n, 32, st.hashMultiplier, L.dob, 32 + 16 * n + 8, st.endian, b⟩ j =
        some ⟨some ((L.sorted.getD j ([], []))).1, ((L.sorted.getD j ([], []))).2⟩ := by
    intro j hj
    have hjZ : j < (L.sorted.zip L.aligns).length := by omega
    have hjS : j < L.sorted.length := by omega
    have hrel := hrelj j hj
    have hrsb := hrsbound j hj
    have hrs4 : (nameOffsets (L.sorted.zip L.aligns) 0).getD j 0 / 4 < 2 ^ 24 :=
      Nat.div_lt_of_lt_mul (by omega)
    have hrelne : (L.entries.getD j entDflt).relNameOptOffset ≠ 0 := by
      rw [hrel, lor_two_pow_eq_add hrs4]; omega
    have hmask : (L.entries.getD j entDflt).relNameOptOffset &&& 0xFFFFFF =
        (nameOffsets (L.sorted.zip L.aligns) 0).getD j 0 / 4 := by
      rw [hrel]; exact lor_mask_two_pow24 hrs4
    have hrsdvd : 4 ∣ (nameOffsets (L.sorted.zip L.aligns) 0).getD j 0 :=
      nameOffsets_dvd _ 0 j hjZ (dvd_zero 4)
    have hdivmul : (nameOffsets (L.sorted.zip L.aligns) 0).getD j 0 / 4 * 4 =
        (nameOffsets (L.sorted.zip L.aligns) 0).getD j 0 := Nat.div_mul_cancel hrsdvd
    have hnoffeq : 32 + 16 * n + 8 +
        ((L.entries.getD j entDflt).relNameOptOffset &&& 0xFFFFFF) * 4 =
        32 + 16 * n + 8 + (nameOffsets (L.sorted.zip L.aligns) 0).getD j 0 := by
      rw [hmask, hdivmul]
    have hrsleS : (nameOffsets (L.sorted.zip L.aligns) 0).getD j 0 ≤
        ((L.sorted.map fun f => (nameBlock f.1).length)).sum := by
      have h1 := nameOffsets_le (L.sorted.zip L.aligns) 0 j hjZ
      have h2 : ((L.sorted.zip L.aligns).map fun p => (nameBlock p.1.1).length) =
          L.sorted.map fun f => (nameBlock f.1).length :=
        zip_map_fst (fun f => (nameBlock f.1).length) L.sorted L.aligns (by omega)
      rw [h2, Nat.zero_add] at h1
      exact h1
    have hnoffle2 : 32 + 16 * n + 8 +
        (nameOffsets (L.sorted.zip L.aligns) 0).getD j 0 ≤ b.length := by
      omega
    have hrsleNMB : (nameOffsets (L.sorted.zip L.aligns) 0).getD j 0 ≤
        ((L.sorted.map fun f => nameBlock f.1).flatten).length := by
      rw [hNMBlen]; exact hrsleS
    have hdn := drop_append_inner b _ _ (32 + 16 * n + 8)
      ((nameOffsets (L.sorted.zip L.aligns) 0).getD j 0) hfR hrsleNMB
    obtain ⟨r2, hr2⟩ := names_extract (L.sorted.zip L.aligns) 0 j hjZ
    rw [Nat.sub_zero, hNMBeq, hzipgetD j hj] at hr2
    rw [hr2, List.append_assoc] at hdn
    simp only [nameBlock, List.append_assoc, List.singleton_append,
      List.cons_append] at hdn
    have hmemj : L.sorted.getD j ([], []) ∈ L.sorted := by
      rw [List.getD_eq_getElem _ _ hjS]
      exact List.getElem_mem hjS
    have hperm : List.Perm L.sorted st.files := by
      rw [hsorted0]; exact List.perm_insertionSort hashLe st.files
    have hnmj := hnm _ (hperm.mem_iff.mp hmemj)
    have hdDOB : b.drop L.dob =
        payloadBuild ((L.sorted.map fun f => f.2).zip L.aligns) L.dob := by
      have hs1 := drop_from b _ _ (32 + 16 * n + 8)
        (((L.sorted.map fun f => (nameBlock f.1).length)).sum) hfR hNMBlen
      have hs2 := drop_from b _ _
        (32 + 16 * n + 8 + ((L.sorted.map fun f => (nameBlock f.1).length)).sum)
        (L.dob - L.namesEnd) hs1 (List.length_replicate _ _)
      have heq : 32 + 16 * n + 8 +
          ((L.sorted.map fun f => (nameBlock f.1).length)).sum +
          (L.dob - L.namesEnd) = L.dob := by omega
      rw [heq] at hs2
      exact hs2
    have hPAY : payloadBuild ((L.sorted.map fun f => f.2).zip L.aligns) L.dob =
        payloadBuild ((L.sorted.zip L.aligns).map fun p => (p.1.2, p.2)) 0 := by
      have hdvdrel : ∀ p ∈ ((L.sorted.zip L.aligns).map fun p => (p.1.2, p.2)),
          p.2 ∣ L.dob := by
        intro p hp
        obtain ⟨q, hq, rfl⟩ := List.mem_map.mp hp
        exact hmemdvd q.2 (List.of_mem_zip hq).2
      have h1 := payloadBuild_shift L.dob
        ((L.sorted.zip L.aligns).map fun p => (p.1.2, p.2)) 0 hdvdrel
      rw [Nat.add_zero] at h1
      have h2 : payloadBuild ((L.sorted.map fun f => f.2).zip L.aligns) L.dob =
          payloadBuild ((L.sorted.zip L.aligns).map fun p => (p.1.2, p.2)) L.dob := by
        rw [zip_map_snd_pair]
      exact h2.trans h1
    obtain ⟨r3, hr3⟩ := payload_extract st.hashMultiplier (L.sorted.zip L.aligns) 0 0 j hjZ
    rw [Nat.sub_zero, ← hentries0, hzipgetD j hj] at hr3
    have hdropdata : b.drop (L.dob + (L.entries.getD j entDflt).dataBegin) =
        ((L.sorted.getD j ([], []))).2 ++ r3 := by
      have hdd : b.drop (L.dob + (L.entries.getD j entDflt).dataBegin) =
          (b.drop L.dob).drop ((L.entries.getD j entDflt).dataBegin) := by
        rw [List.drop_drop]
      rw [hdd, hdDOB, hPAY]
      exact hr3
    have hendle := hbeginlt j hj
    have hend := hendj j hj
    have hlo2 : L.dob + (L.entries.getD j entDflt).dataBegin < 2 ^ 32 := by omega
    have hhi2 : L.dob + (L.entries.getD j entDflt).dataEnd < 2 ^ 32 := by omega
    have hbe2 : (L.entries.getD j entDflt).dataBegin ≤
        (L.entries.getD j entDflt).dataEnd := by omega
    have hhile2 : L.dob + (L.entries.getD j entDflt).dataEnd ≤ b.length := by omega
    have hdropd : (b.drop (L.dob + (L.entries.getD j entDflt).dataBegin)).take
        ((L.entries.getD j entDflt).dataEnd - (L.entries.getD j entDflt).dataBegin) =
        ((L.sorted.getD j ([], []))).2 := by
      rw [hdropdata, hend, Nat.add_sub_cancel_left]
      exact List.take_left _ _
    exact sarcFileAtIdx_eval _ j _ _ _ _ _ (hentreadj j hj) hrelne hnoffeq hnoffle2 hdn
      hnmj.2 hnmj.1 hlo2 hhi2 hbe2 hhile2 hdropd
  have hfiles : sarcFiles ⟨n, 32, st.hashMultiplier, L.dob, 32 + 16 * n + 8, st.endian, b⟩ =
      L.sorted.map fun f => (⟨some f.1, f.2⟩ : FileP) := by
    have hFlen : (L.sorted.map fun f => (⟨some f.1, f.2⟩ : FileP)).length = n := by
      rw [List.length_map]
    have hall : ∀ j, j < (L.sorted.map fun f => (⟨some f.1, f.2⟩ : FileP)).length →
        sarcFileAtIdx ⟨n, 32, st.hashMultiplier, L.dob, 32 + 16 * n + 8, st.endian, b⟩ j =
          some ((L.sorted.map fun f => (⟨some f.1, f.2⟩ : FileP)).getD j ⟨none, []⟩) := by
      intro j hj
      rw [hFlen] at hj
      have hjS : j < L.sorted.length := by omega
      have hjF : j < (L.sorted.map fun f => (⟨some f.1, f.2⟩ : FileP)).length := by
        rw [List.length_map]; exact hjS
      have hgd : (L.sorted.map fun f => (⟨some f.1, f.2⟩ : FileP)).getD j ⟨none, []⟩ =
          ⟨some ((L.sorted.getD j ([], []))).1, ((L.sorted.getD j ([], []))).2⟩ := by
        rw [List.getD_eq_getElem _ _ hjF, List.getElem_map, List.getD_eq_getElem _ _ hjS]
      rw [hgd]
      exact hfile j hj
    have h := sarcFilesAux_eq
      ⟨n, 32, st.hashMultiplier, L.dob, 32 + 16 * n + 8, st.endian, b⟩
      _ hall n 0 (by rw [hFlen]; omega)
    rw [List.drop_zero] at h
    exact h
  have hnamed : namedPairs ⟨n, 32, st.hashMultiplier, L.dob, 32 + 16 * n + 8,
      st.endian, b⟩ = L.sorted := by
    unfold namedPairs
    rw [hfiles]
    exact filterMap_named L.sorted
  have hnds : ((namedPairs ⟨n, 32, st.hashMultiplier, L.dob, 32 + 16 * n + 8,
      st.endian, b⟩).map Prod.fst).Nodup := by
    rw [hnamed]
    have hperm : List.Perm (L.sorted.map Prod.fst) (st.files.map Prod.fst) := by
      rw [hsorted0]
      exact (List.perm_insertionSort hashLe st.files).map Prod.fst
    exact hperm.nodup_iff.mpr hnd
  have hne0' : (⟨n, 32, st.hashMultiplier, L.dob, 32 + 16 * n + 8, st.endian, b⟩ :
      SarcP).numFiles ≠ 0 := by
    show n ≠ 0
    omega
  have hent0 : readFatEntry st.endian b 32 = some (L.entries.getD 0 entDflt) := by
    have h0 := hentreadj 0 (by omega)
    simpa using h0
  have hbeg0 : (L.entries.getD 0 entDflt).dataBegin = 0 := by
    rw [hentries0]
    refine entriesCalc_begin_zero st.hashMultiplier _ 0 ?_
    intro hnil
    rw [hnil] at hZlen
    simp at hZlen
    omega
  have hguess : guessMinAlignment ⟨n, 32, st.hashMultiplier, L.dob, 32 + 16 * n + 8,
      st.endian, b⟩ = some 4 := by
    rw [guess_first_entry _ (L.entries.getD 0 entDflt) hne0' hent0]
    rw [hbeg0]
    show some (Nat.gcd 4 ((L.dob + 0) % 2 ^ 32)) = some 4
    rw [Nat.add_zero, Nat.mod_eq_of_lt hDOBlt, Nat.gcd_eq_left h4DOB]
  have hfrom : sarcFromSarc ⟨n, 32, st.hashMultiplier, L.dob, 32 + 16 * n + 8,
      st.endian, b⟩ = some ⟨st.endian, false, 0x65, 4, [], L.sorted⟩ := by
    unfold sarcFromSarc
    simp only [hguess]
    rw [foldl_idxInsert_nodup _ [] (fun _ _ => rfl) hnds]
    rw [List.nil_append, hnamed]
  refine ⟨hnew, hfrom, ?_⟩
  rw [hbdef]
  have hsrt : List.Sorted hashLe L.sorted := by
    rw [hsorted0]
    exact List.sorted_insertionSort hashLe st.files
  refine sarcWriteBytes_congr aglenv fac _ st rfl hleg.symm hmult.symm hmin.symm
    hmap2.symm ?_
  show List.insertionSort hashLe L.sorted = List.insertionSort hashLe st.files
  rw [List.Sorted.insertionSort_eq hsrt, hsorted0]

/-- C1 amended: the round trip holds whenever `to_binary`'s emission
succeeds, and that success is exactly the condition that `est_size` —
1.5 times the unaligned content, ignoring alignment padding — covers the
aligned layout.  For every buffer laid out by a default-configured writer
(not legacy, hash multiplier 0x65, minimum alignment 4, empty alignment
map) whose files are nonempty with NUL-free valid-UTF-8
pairwise-distinct names, fewer than 2^14 files, a file size in
[0x40, 2^32), a name-table end below 2^26 and positive computed
alignments, and whose `file_size` fits the estimate: `Sarc::new` parses
the buffer, `from_sarc` reconstructs a writer without modification, and
`to_binary` on it succeeds with a byte-for-byte identical buffer.
Without the estimate hypothesis `to_binary` panics on archives whose
alignment padding outgrows the estimate (see the counterexample). -/
theorem sarc_roundtrip_byte_identical (aglenv : List (Bytes × Nat)) (fac : List Bytes)
    (st : SarcWriterS)
    (hleg : st.legacy = false) (hmult : st.hashMultiplier = 0x65)
    (hmin : st.minAlignment = 4) (hmap2 : st.alignmentMap = [])
    (hne : st.files ≠ [])
    (hnm : ∀ p ∈ st.files, validUtf8 p.1 = true ∧ ∀ c ∈ p.1, c ≠ 0)
    (hnd : (st.files.map Prod.fst).Nodup)
    (hcount : st.files.length < 2 ^ 14)
    (hfs : (sarcWriteLayout aglenv fac st).fileSize < 2 ^ 32)
    (hlen : 0x40 ≤ (sarcWriteLayout aglenv fac st).fileSize)
    (hnend : (sarcWriteLayout aglenv fac st).namesEnd < 2 ^ 26)
    (hpos : ∀ a ∈ (sarcWriteLayout aglenv fac st).aligns, 0 < a)
    (hest : (sarcWriteLayout aglenv fac st).fileSize ≤ estSize st) :
    ∃ s w, sarcNew (sarcWriteBytes aglenv fac st) = some s ∧
      sarcFromSarc s = some w ∧
      sarcToBinary aglenv fac w = some (sarcWriteBytes aglenv fac st) := by
  obtain ⟨h1, h2, h3⟩ := sarc_roundtrip_core aglenv fac st hleg hmult hmin hmap2 hne hnm
    hnd hcount hfs hlen hnend hpos
  refine ⟨_, _, h1, h2, ?_⟩
  have hsrt : List.Sorted hashLe (sarcWriteLayout aglenv fac st).sorted :=
    List.sorted_insertionSort hashLe st.files
  have hf : List.insertionSort hashLe
      ((⟨st.endian, false, 0x65, 4, [], (sarcWriteLayout aglenv fac st).sorted⟩ :
        SarcWriterS)).files = List.insertionSort hashLe st.files := by
    show List.insertionSort hashLe (sarcWriteLayout aglenv fac st).sorted =
      List.insertionSort hashLe st.files
    rw [List.Sorted.insertionSort_eq hsrt]
    rfl
  have hLeq : sarcWriteLayout aglenv fac
      ⟨st.endian, false, 0x65, 4, [], (sarcWriteLayout aglenv fac st).sorted⟩ =
      sarcWriteLayout aglenv fac st :=
    sarcWriteLayout_congr aglenv fac _ st rfl hleg.symm hmult.symm hmin.symm
      hmap2.symm hf
  have hperm : List.Perm
      ((⟨st.endian, false, 0x65, 4, [], (sarcWriteLayout aglenv fac st).sorted⟩ :
        SarcWriterS)).files st.files :=
    List.perm_insertionSort hashLe st.files
  have hest2 : (sarcWriteLayout aglenv fac
      ⟨st.endian, false, 0x65, 4, [], (sarcWriteLayout aglenv fac st).sorted⟩).fileSize ≤
      estSize ⟨st.endian, false, 0x65, 4, [], (sarcWriteLayout aglenv fac st).sorted⟩ := by
    rw [hLeq, estSize_congr _ st hperm]
    exact hest
  unfold sarcToBinary
  rw [if_pos hest2, h3]

/-- A two-file writer in the default configuration, for the C1 witness. -/
def c1st : SarcWriterS :=
  ⟨.little, false, 0x65, 4, [], [([97], [1, 2, 3, 4]), ([98], [5])]⟩

/-- Witness for C1 amended at the concrete writer `c1st` (with the
external alignment tables empty): its 85-byte output fits the estimate
`est_size = 127` and round-trips. -/
theorem sarc_roundtrip_byte_identical_witness :
    ∃ s w, sarcNew (sarcWriteBytes [] [] c1st) = some s ∧
      sarcFromSarc s = some w ∧
      sarcToBinary [] [] w = some (sarcWriteBytes [] [] c1st) :=
  sarc_roundtrip_byte_identical [] [] c1st rfl rfl rfl rfl (by decide) (by decide)
    (by decide) (by decide) (by decide) (by decide) (by decide) (by decide) (by decide)

/-- A single-file default-configured writer whose file "a.gtx" (one data
byte) picks up the hard-coded gtx ↦ 0x2000 default alignment. -/
def gtxst : SarcWriterS :=
  ⟨.little, false, 0x65, 4, [], [([97, 46, 103, 116, 120], [1])]⟩

/-- C1 counterexample: the original claim has no estimate condition, but
the 8193-byte archive written from `gtxst` — well-formed, every entry
named, distinct names, multiplier 0x65, default alignment policy — parses
back and reconstructs the very same writer, yet `to_binary` on it panics
(`none`): `est_size` is 97 (1.5 × the 65 unaligned content bytes) while
the gtx entry's 0x2000 alignment pads the layout to `file_size` 8193, so
every write past the estimate fails and the `expect` fires.  No buffer,
byte-identical or otherwise, is produced. -/
theorem sarc_roundtrip_est_size_cx :
    sarcNew (sarcWriteBytes [] [] gtxst) =
        some ⟨1, 32, 0x65, 0x2000, 56, .little, sarcWriteBytes [] [] gtxst⟩ ∧
      sarcFromSarc ⟨1, 32, 0x65, 0x2000, 56, .little, sarcWriteBytes [] [] gtxst⟩ =
        some gtxst ∧
      sarcToBinary [] [] gtxst = none := by
  obtain ⟨h1, h2, _⟩ := sarc_roundtrip_core [] [] gtxst rfl rfl rfl rfl (by decide)
    (by decide) (by decide) (by decide) (by decide) (by decide) (by decide) (by decide)
  refine ⟨h1, h2, ?_⟩
  decide

end Roead

